import Mathlib

/-!
Verification of the `perf.py` micro-benchmark harness (repository `mikf/perf.py`).

The repository has two harness variants: the current package
`src/perf_py/__init__.py` (version 0.4.2) and the legacy single-file
`src/perf.py` (version 0.2.2).  This development gives a shallow embedding of
the parts of both variants that the specification's claims are about:

* the fragment extractor `extract_code` (both variants), as a line-by-line
  state machine over documents represented as lists of lines, with Python
  `dict` semantics embedded as ordered association lists;
* the harness synthesizer `benchmark_generate` together with its helpers
  `indent` and `indent_strip_return`, working on lines represented as
  `List Char`;
* a statement-level execution semantics for the synthesized harness unit
  (modelling the Python execution of the fixed `TEMPLATE`: the setup and init
  regions run once, the timed loop region runs once per iteration, plain
  statement lines fall through, `continue` ends the current iteration and
  `return` leaves the unit);
* the timed executor `benchmark_run` with the `GC` context manager, embedded
  as an explicit state transformer over the process-global boolean
  "automatic garbage collection enabled" state;
* the calibrator `guess_iterations` and the orchestration `mode_benchmark`,
  with each fragment's compiled unit abstracted as an oracle (compilation
  outcome, deterministic raise behaviour, and elapsed ticks as a function of
  the iteration count), since actual Python compilation and execution are
  outside the embedding.  Python's `int(x)` truncation of a float quotient is
  modelled as truncated rational division.
-/

set_option maxHeartbeats 1000000

namespace Perf

/-- Equality of `Except` values is decidable when it is on both sides. -/
instance {ε α : Type} [DecidableEq ε] [DecidableEq α] :
    DecidableEq (Except ε α) := fun a b =>
  match a, b with
  | .error e, .error e' =>
    if h : e = e' then .isTrue (by rw [h]) else .isFalse (by simp [h])
  | .ok v, .ok v' =>
    if h : v = v' then .isTrue (by rw [h]) else .isFalse (by simp [h])
  | .error _, .ok _ => .isFalse (by simp)
  | .ok _, .error _ => .isFalse (by simp)

/-- A raw text line (or any piece of text), as a list of characters. -/
abbrev Line := List Char

/-- Python's notion of whitespace for `str.strip` / `str.lstrip` on ASCII
text: space, tab, newline, carriage return, vertical tab, form feed. -/
def pyIsSpace (c : Char) : Bool :=
  c = ' ' || c = '\t' || c = '\n' || c = '\r' || c = '\x0b' || c = '\x0c'

/-- Python `str.lstrip()`: drop leading whitespace. -/
def lstrip (s : Line) : Line := s.dropWhile pyIsSpace

/-- Python `str.rstrip()`: drop trailing whitespace. -/
def rstripWS (s : Line) : Line := (s.reverse.dropWhile pyIsSpace).reverse

/-- Python `str.strip()`: drop whitespace on both ends. -/
def strip (s : Line) : Line := lstrip (rstripWS s)

/-- Python `str.rstrip("()")`: drop trailing parenthesis characters
(used by the extractor on definition header lines). -/
def rstripParens (s : Line) : Line :=
  (s.reverse.dropWhile (fun c => c = '(' || c = ')')).reverse

/-- Python `s.partition(sep)[0]` for a single-character separator: the part
of `s` before the first occurrence of `sep` (the whole of `s` when `sep` does
not occur). -/
def partBefore (sep : Char) (s : Line) : Line := s.takeWhile (fun c => c ≠ sep)

/-- The `"def "` prefix that introduces a fragment definition. -/
def defPrefix : Line := "def ".data

/-- The key under which the baseline fragment is stored. -/
def baseKey : Line := "base".data

/-- Decimal digits of a natural number, as characters. -/
def natChars (n : Nat) : Line := (Nat.repr n).data

/-- `src/perf_py/__init__.py` line 60: the fragment name parsed from a
definition header line:
`line[4:].partition(":")[0].rstrip("()").partition("(")[0].strip()`. -/
def parseDefName (line : Line) : Line :=
  strip (partBefore '(' (rstripParens (partBefore ':' (line.drop 4))))

/-- `src/perf.py` line 60 (legacy variant): the fragment name parsed from a
definition header line: `line[4:].partition("(")[0].strip()`. -/
def parseDefNameOld (line : Line) : Line :=
  strip (partBefore '(' (line.drop 4))

/-- An ordered mapping from fragment keys to bodies, embedding a Python
`dict` whose values are lists of lines. -/
abbrev FragMap := List (Line × List Line)

/-- Python `d[k] = v` on an ordered `dict`: replace the value in place when
the key is present (keeping its original position), append otherwise. -/
def dictSet (k : Line) (v : List Line) : FragMap → FragMap
  | [] => [(k, v)]
  | (k', v') :: rest =>
    if k' = k then (k', v) :: rest else (k', v') :: dictSet k v rest

/-- `lines.append(line)` through the alias stored in the `dict`: append one
line to the body stored under key `k` (no-op when `k` is absent, which the
extractor never does). -/
def dictAppend (k : Line) (line : Line) : FragMap → FragMap
  | [] => []
  | (k', v) :: rest =>
    if k' = k then (k', v ++ [line]) :: rest else (k', v) :: dictAppend k line rest

/-- The extractor's scan state: the active fragment cursor, the fragment
counter `fidx`, the setup block accumulated so far and the fragment mapping
accumulated so far (`src/perf_py/__init__.py` lines 51-54). -/
structure XState where
  name : Option Line
  fidx : Nat
  setup : List Line
  functions : FragMap
deriving DecidableEq

/-- One step of the current extractor's line scan
(`src/perf_py/__init__.py` lines 59-79): a `def ` header starts a fragment
(private `_`-names are folded into setup; non-`base` names are registered
under a fresh `"{fidx} {name}"` key); while a cursor is active, a line
starting with a space or a newline joins the body and any other line closes
the fragment and joins setup; with no cursor every line joins setup. -/
def extractStep (st : XState) (line : Line) : XState :=
  if defPrefix.isPrefixOf line then
    let name := parseDefName line
    if ['_'].isPrefixOf name then
      { st with name := none, setup := st.setup ++ [line] }
    else if name = baseKey then
      { st with name := some name, functions := dictSet name [] st.functions }
    else
      let fidx := st.fidx + 1
      let key := natChars fidx ++ ' ' :: name
      { st with name := some key, fidx := fidx,
                functions := dictSet key [] st.functions }
  else
    match st.name with
    | some k =>
      if [' '].isPrefixOf line || ['\n'].isPrefixOf line then
        { st with functions := dictAppend k line st.functions }
      else
        { st with name := none, setup := st.setup ++ [line] }
    | none => { st with setup := st.setup ++ [line] }

/-- `extract_code` of the current variant (`src/perf_py/__init__.py` lines
50-81), over a document given as its list of raw lines. -/
def extract_code (doc : List Line) : List Line × FragMap :=
  let st := doc.foldl extractStep ⟨none, 0, [], []⟩
  (st.setup, st.functions)

/-- One step of the legacy extractor's line scan (`src/perf.py` lines
59-76): like `extractStep` but fragment keys are the bare parsed names,
with no index prefix and no `base` special case. -/
def extractStepOld (st : XState) (line : Line) : XState :=
  if defPrefix.isPrefixOf line then
    let name := parseDefNameOld line
    if ['_'].isPrefixOf name then
      { st with name := none, setup := st.setup ++ [line] }
    else
      { st with name := some name, functions := dictSet name [] st.functions }
  else
    match st.name with
    | some k =>
      if [' '].isPrefixOf line || ['\n'].isPrefixOf line then
        { st with functions := dictAppend k line st.functions }
      else
        { st with name := none, setup := st.setup ++ [line] }
    | none => { st with setup := st.setup ++ [line] }

/-- `extract_code` of the legacy variant (`src/perf.py` lines 49-78). -/
def extract_code_old (doc : List Line) : List Line × FragMap :=
  let st := doc.foldl extractStepOld ⟨none, 0, [], []⟩
  (st.setup, st.functions)

/-! ## Harness synthesis (`indent`, `indent_strip_return`, `benchmark_generate`) -/

/-- Four spaces, one indentation level in the synthesized source. -/
def fourSpaces : Line := "    ".data

/-- `indent` (`src/perf_py/__init__.py` lines 84-86): prefix every line with
four spaces. -/
def indent (lines : List Line) : List Line := lines.map (fun l => fourSpaces ++ l)

/-- The body of `indent_strip_return`'s loop for a single line
(`src/perf_py/__init__.py` lines 89-100).  `hasNext` is Python's
`idx + 1 < len(lines)`.  A line whose `lstrip` starts with `"return "` is
replaced by `ws + line[wslen+2:-1].lstrip() + "\n"` (where
`wslen = len(line) - len(sline) + 4` and `ws` is `wslen` spaces), followed by
`ws + "continue\n"` when the line is not the last one; any other line is
indented by four spaces. -/
def stripReturnLine (line : Line) (hasNext : Bool) : Line :=
  let sline := lstrip line
  if ("return ".data).isPrefixOf sline then
    let wslen := line.length - sline.length + 4
    let ws : Line := List.replicate wslen ' '
    let core := ws ++ lstrip ((line.drop (wslen + 2)).dropLast) ++ ['\n']
    if hasNext then core ++ ws ++ "continue\n".data else core
  else fourSpaces ++ line

/-- `indent_strip_return` (`src/perf_py/__init__.py` lines 89-100): rewrite
each line with `stripReturnLine`, the last line of the list being the one
with no successor. -/
def indent_strip_return : List Line → List Line
  | [] => []
  | [l] => [stripReturnLine l false]
  | l :: rest => stripReturnLine l true :: indent_strip_return rest

/-- The separator marker: a line whose stripped form is `"###"` splits a
fragment body into init block and loop body. -/
def marker3 : Line := "###".data

/-- The `for idx, line in enumerate(code): if line.strip() == "###": ...
break` scan of `benchmark_generate` (`src/perf_py/__init__.py` lines
109-113): at the first marker line return the lines before it and the lines
after it; `none` when no marker occurs. -/
def splitAux : List Line → Option (List Line × List Line)
  | [] => none
  | l :: rest =>
    if strip l = marker3 then some ([], rest)
    else
      match splitAux rest with
      | some (ini, c) => some (l :: ini, c)
      | none => none

/-- The init/loop split performed by `benchmark_generate` (lines 109-116):
everything before the first marker becomes the init block and everything
after it the loop body; with no marker the init block is empty and the whole
body is the loop body. -/
def benchmark_split (code : List Line) : List Line × List Line :=
  match splitAux code with
  | some p => p
  | none => ([], code)

/-- The synthesized harness unit, holding the three regions that
`TEMPLATE.format(setup=..., init=..., code=...)` pastes into the fixed
template (`src/perf_py/__init__.py` lines 19-31): the setup region and the
init region run once at function level, the code region sits under
`for _ in __iterator:`. -/
structure Harness where
  setup : List Line
  init : List Line
  code : List Line
deriving DecidableEq

/-- `benchmark_generate` (`src/perf_py/__init__.py` lines 108-126): split
the body at the first marker, then either (capture mode, `return_stmt=True`)
indent the loop body and append a bare `"    return"` line after it, or
(timing mode) rewrite it with `indent_strip_return`.  The result is the
filled template, represented by its three regions. -/
def benchmark_generate (code : List Line) (setup : List Line)
    (return_stmt : Bool) : Harness :=
  let p := benchmark_split code
  let body := if return_stmt then indent p.2 ++ ["    return".data]
              else indent_strip_return p.2
  ⟨setup, p.1, body⟩

/-- The exact text of the filled template, `TEMPLATE.format(...)`
(`src/perf_py/__init__.py` lines 19-31 and 125-126), for reference: the
regions of a `Harness` joined into the fixed surrounding text. -/
def render (h : Harness) : Line :=
  "\ndef inner(__iterator, __timer):\n    # setup\n".data ++ h.setup.flatten
    ++ "\n    # init\n".data ++ h.init.flatten
    ++ "\n    # loop\n    __t0 = __timer()\n    for _ in __iterator:\n".data
    ++ h.code.flatten
    ++ "\n    __t1 = __timer()\n    return __t1 - __t0\n".data

/-! ## Statement-level execution semantics of a synthesized unit

The generated source is Python; its execution is modelled here at the
granularity the specification speaks at: each physical line is one
statement, plain statements fall through, `continue` ends the current loop
iteration, `return` leaves the unit (with the value of its expression, a
decimal literal evaluating to the corresponding integer).  Nested block
statements are not modelled; theorems that need straight-line bodies state
that hypothesis explicitly. -/

/-- Split a piece of text into its physical lines (split at `'\n'`,
dropping the terminators; a trailing final newline produces no extra empty
line). -/
def splitNl : Line → List Line
  | [] => [[]]
  | c :: rest =>
    if c = '\n' then [] :: splitNl rest
    else
      match splitNl rest with
      | h :: t => (c :: h) :: t
      | [] => [[c]]

/-- Physical lines of one synthesized-line entry (an entry produced by
`indent_strip_return` can hold two physical lines). -/
def physLines (l : Line) : List Line :=
  let ps := splitNl l
  if ps.getLast? = some [] then ps.dropLast else ps

/-- All physical lines of a region. -/
def physList (ls : List Line) : List Line := (ls.map physLines).flatten

/-- A value a unit run can produce: Python `None`, an integer, an opaque
expression (kept as text), or the elapsed-ticks result `__t1 - __t0`
returned by a timing-mode unit that completes its loop. -/
inductive PyVal where
  | pynone
  | intv (n : Nat)
  | opaque_ (e : Line)
  | elapsed
deriving DecidableEq

/-- Evaluate a return expression: a non-empty all-digit literal is the
corresponding integer, anything else is kept as opaque text; a bare
`return` yields `None`. -/
def evalRet : Option Line → PyVal
  | none => .pynone
  | some e =>
    if e ≠ [] ∧ e.all Char.isDigit then
      .intv (e.foldl (fun acc c => acc * 10 + (c.toNat - 48)) 0)
    else .opaque_ e

/-- One modelled statement. -/
inductive Stmt where
  | pass
  | expr (e : Line)
  | cont
  | ret (e : Option Line)
deriving DecidableEq

/-- Is the character a Python identifier character (so that `return1` is an
expression while `return(1)` is a return statement)? -/
def isIdentChar (c : Char) : Bool := c.isAlphanum || c = '_'

/-- The statement a physical line denotes, by its stripped form: blank lines
are no-ops, `continue` and `return`-statements are recognized, everything
else is a plain expression/assignment statement. -/
def classify (l : Line) : Stmt :=
  let s := strip l
  if s = [] then .pass
  else if s = "continue".data then .cont
  else if s = "return".data then .ret none
  else if ("return ".data).isPrefixOf s then .ret (some (strip (s.drop 7)))
  else if ("return".data).isPrefixOf s &&
      (match s.get? 6 with | some c => ! isIdentChar c | none => false) then
    .ret (some (strip (s.drop 6)))
  else .expr s

/-- A statement with no control effect. -/
def Stmt.isPlain : Stmt → Bool
  | .pass => true
  | .expr _ => true
  | _ => false

/-- Control effect of running a straight-line statement sequence once. -/
inductive Flow where
  | norm
  | cont
  | ret (v : PyVal)
deriving DecidableEq

/-- Run a statement sequence once: the statements actually executed, and the
resulting control effect (`continue` and `return` skip the rest). -/
def execStmts : List Stmt → List Stmt × Flow
  | [] => ([], .norm)
  | s :: rest =>
    match s with
    | .ret e => ([s], .ret (evalRet e))
    | .cont => ([s], .cont)
    | _ => let p := execStmts rest; (s :: p.1, p.2)

/-- Run the loop body for `n` iterations (`for _ in __iterator:` over
`itertools.repeat(None, n)`): per-iteration executed-statement traces, plus
the early-return value if a `return` fired. -/
def runLoopN (stmts : List Stmt) : Nat → List (List Stmt) × Option PyVal
  | 0 => ([], none)
  | n + 1 =>
    let p := execStmts stmts
    match p.2 with
    | .ret v => ([p.1], some v)
    | _ => let q := runLoopN stmts n; (p.1 :: q.1, q.2)

/-- Does a physical line of the code region still belong to the `for` block?
Lines indented to depth 8 do, and blank lines never close a block; a
less-indented line (such as the `"    return"` appended in capture mode)
dedents out of the loop. -/
def inLoopLine (l : Line) : Bool :=
  ("        ".data).isPrefixOf l || strip l = []

/-- The statements of a region, one per physical line. -/
def regionStmts (region : List Line) : List Stmt := (physList region).map classify

/-- The trace of one full run of a synthesized unit. -/
structure ExecResult where
  setupRan : List Stmt
  initRan : List Stmt
  loopIters : List (List Stmt)
  afterRan : List Stmt
  ret : PyVal
deriving DecidableEq

/-- Run a synthesized harness unit for `n` iterations, per the fixed
template: setup region once, init region once, then the lines of the code
region that are indented into the `for` block once per iteration, then the
lines after the loop; a timing-mode unit that completes the loop returns
`__t1 - __t0` (the `elapsed` value). -/
def harnessExec (h : Harness) (n : Nat) : ExecResult :=
  let sP := execStmts (regionStmts h.setup)
  match sP.2 with
  | .ret v => ⟨sP.1, [], [], [], v⟩
  | .cont => ⟨sP.1, [], [], [], .pynone⟩
  | .norm =>
    let iP := execStmts (regionStmts h.init)
    match iP.2 with
    | .ret v => ⟨sP.1, iP.1, [], [], v⟩
    | .cont => ⟨sP.1, iP.1, [], [], .pynone⟩
    | .norm =>
      let phys := physList h.code
      let loopS := (phys.takeWhile inLoopLine).map classify
      let afterS := (phys.dropWhile inLoopLine).map classify
      let lp := runLoopN loopS n
      match lp.2 with
      | some v => ⟨sP.1, iP.1, lp.1, [], v⟩
      | none =>
        let aP := execStmts afterS
        match aP.2 with
        | .ret v => ⟨sP.1, iP.1, lp.1, aP.1, v⟩
        | _ => ⟨sP.1, iP.1, lp.1, aP.1, .elapsed⟩

/-! ## The timed executor (`GC`, `benchmark_run`)

The process-global automatic-garbage-collection flag is a `Bool` threaded
explicitly; a loaded unit is a function from the iteration count and the
current flag to a result (elapsed ticks, or a raised exception's text) and
the flag it leaves behind — so a unit may itself toggle the collector.
Python's `with` statement runs `__exit__` on both the normal and the
raising path, which the straight-line composition below encodes. -/

/-- `gc.isenabled()`. -/
def gc_isenabled (g : Bool) : Bool := g

/-- `GC._set_state` (`src/perf_py/__init__.py` lines 46-47):
`gc.enable() if state else gc.disable()` as a transformer of the global
flag. -/
def gc_set_state (state : Bool) (_g : Bool) : Bool := state

/-- `benchmark_run` (`src/perf_py/__init__.py` lines 138-141): build the
iterator, then inside `with GC(enable_gc):` call the unit.  `__enter__`
stores `gc.isenabled()` and applies the requested state; `__exit__`
restores the stored state, and runs on the raising path as well. -/
def benchmark_run (function : Nat → Bool → (Except Line Int × Bool))
    (iterations : Nat) (enable_gc : Bool) (g : Bool) :
    Except Line Int × Bool :=
  let prev := gc_isenabled g
  let g1 := gc_set_state enable_gc g
  let p := function iterations g1
  let g2 := gc_set_state prev p.2
  (p.1, g2)

/-! ## Calibration and the benchmark orchestration (`mode_benchmark`)

A fragment's compiled unit is abstracted as an oracle: whether
`benchmark_compile` succeeds, whether every invocation raises (with which
message), and the elapsed ticks as a function of the iteration count.
Python's `int(float_quotient)` is modelled by truncated rational
division. -/

/-- Python `int()` truncation toward zero of a rational. -/
def pyTrunc (q : ℚ) : Int := q.num.tdiv (q.den : Int)

/-- A Python exception escaping or guiding the orchestration. -/
inductive PyExc where
  | valueError
  | zeroDivisionError
  | syntaxError (msg : Line)
  | runtimeExc (msg : Line)
deriving DecidableEq

/-- A compiled harness unit, abstracted: `raises = some msg` means every
invocation raises (deterministically), otherwise `ticks n` is the elapsed
tick count of a run over `n` iterations. -/
structure LoadedUnit where
  raises : Option Line
  ticks : Nat → Nat

/-- A fragment as `mode_benchmark` receives it: its extracted source lines
and the outcome of compiling its synthesized harness. -/
structure FragSpec where
  source : List Line
  compile : Except Line LoadedUnit

/-- An observable event of the orchestration: a unit being compiled, or a
unit being invoked via `benchmark_run` with an iteration count. -/
inductive Ev where
  | comp (name : Line)
  | run (name : Line) (iters : Int)
deriving DecidableEq

/-- The name used in the event log for the internal empty-loop (`pass`)
baseline unit, which corresponds to no input fragment. -/
def passKey : Line := "pass".data

/-- Invoke a unit: either its deterministic exception or its tick count
(negative or zero iteration counts make `itertools.repeat` empty). -/
def runUnit (u : LoadedUnit) (iters : Int) : Except PyExc Nat :=
  match u.raises with
  | some m => .error (.runtimeExc m)
  | none => .ok (u.ticks iters.toNat)

/-- Python's dividing outcome `int(threshold / timing * 1000)` from
`guess_iterations` (`src/perf_py/__init__.py` line 147): a
`ZeroDivisionError` when the sampled timing is zero. -/
def guessVal (threshold : Int) (timing : Nat) : Except PyExc Int :=
  if timing = 0 then .error .zeroDivisionError
  else .ok (pyTrunc ((threshold : ℚ) / (timing : ℚ) * 1000))

/-- `guess_iterations` (`src/perf_py/__init__.py` lines 144-147): run the
unit once with the fixed sample count 1 000, then linearly extrapolate.
Returns the result together with the list of iteration counts the unit was
invoked with. -/
def guess_iterations (ticks : Nat → Nat) (threshold : Int) :
    Except PyExc Int × List Nat :=
  let iterations : Nat := 1000
  let timing := ticks iterations
  (guessVal threshold timing, [iterations])

/-- `iters = iterations or guess_iterations(function, args.threshold)`
(`src/perf_py/__init__.py` lines 257 and 288): a non-zero explicit count is
used as is and calibration is skipped entirely; otherwise the unit is
sampled at 1 000 iterations and the extrapolated count is used.  Also
returns the calibration events. -/
def chooseIters (name : Line) (explicit : Int) (thr : Int) (u : LoadedUnit) :
    Except PyExc (Int × List Ev) :=
  if explicit ≠ 0 then .ok (explicit, [])
  else
    match runUnit u 1000 with
    | .error e => .error e
    | .ok t =>
      match guessVal thr t with
      | .error e => .error e
      | .ok n => .ok (n, [Ev.run name 1000])

/-- One measurement: choose the iteration count, run the unit, divide
elapsed ticks by the count (`timing / iters`, a `ZeroDivisionError` when
the count is zero).  Returns the per-iteration cost, the count used, and
the events. -/
def measureRaw (name : Line) (explicit : Int) (thr : Int) (u : LoadedUnit) :
    Except PyExc (ℚ × Int × List Ev) :=
  match chooseIters name explicit thr u with
  | .error e => .error e
  | .ok (iters, evs) =>
    match runUnit u iters with
    | .error e => .error e
    | .ok t =>
      if iters = 0 then .error .zeroDivisionError
      else .ok ((t : ℚ) / (iters : ℚ), iters, evs ++ [Ev.run name iters])

/-- `args.threshold = int(args.threshold * TICKS_PER_SECOND)` when the
configured threshold (seconds) is non-zero, else one second's worth of
ticks (`src/perf_py/__init__.py` lines 249-252). -/
def thresholdTicks (t : ℚ) : Int :=
  if t ≠ 0 then pyTrunc (t * 1000000000) else 1000000000

/-- The configuration surface `mode_benchmark` consumes. -/
structure Args where
  iterations : Int
  threshold : ℚ
  gcFlag : Bool
  loop : Bool

/-- `functions.pop("base", None)`: remove the entry with the given key from
the ordered mapping, returning its value when present. -/
def dictPop (k : Line) : List (Line × α) → Option α × List (Line × α)
  | [] => (none, [])
  | (k', v) :: rest =>
    if k' = k then (some v, rest)
    else
      let p := dictPop k rest
      (p.1, (k', v) :: p.2)

/-- The `elif args.loop` / `else` fallback of the baseline computation
(`src/perf_py/__init__.py` lines 259-264): with loop-overhead subtraction
requested, measure an internal empty-body (`pass`) unit — whose tick oracle
is `passTicks` — over 1 000 000 iterations; otherwise the baseline cost is
zero. -/
def basePhaseFallback (args : Args) (passTicks : Nat → Nat) :
    Except PyExc (ℚ × List Ev) :=
  if args.loop then
    .ok ((passTicks 1000000 : ℚ) / 1000000,
         [Ev.comp passKey, Ev.run passKey 1000000])
  else .ok (0, [])

/-- The baseline computation (`src/perf_py/__init__.py` lines 254-264).
`popped` is what `functions.pop("base", None)` returned; the walrus
condition `if source := ...:` is true only for a present `base` fragment
with a non-empty body, in which case the base unit is compiled, calibrated
(unless an explicit count is given) and measured; otherwise the fallback
applies. -/
def basePhase (args : Args) (thr : Int) (passTicks : Nat → Nat)
    (popped : Option FragSpec) : Except PyExc (ℚ × List Ev) :=
  match popped with
  | some fs =>
    if fs.source ≠ [] then
      match fs.compile with
      | .error m => .error (.syntaxError m)
      | .ok u =>
        match measureRaw baseKey args.iterations thr u with
        | .error e => .error e
        | .ok (q, _, evs) => .ok (q, Ev.comp baseKey :: evs)
    else basePhaseFallback args passTicks
  | none => basePhaseFallback args passTicks

/-- The pre-flight loop (`src/perf_py/__init__.py` lines 269-279): every
fragment is synthesized and compiled — a compilation failure raises an
uncaught exception, aborting right there — and then run once inside
`try/except`; the exceptions raised by these single-iteration runs are
collected (with the fragment name) while the loop continues.  Returns the
compiled units, the collected error report lines, and the events. -/
def preflight : List (Line × FragSpec) →
    Except PyExc (List (Line × LoadedUnit) × List (Line × Line) × List Ev)
  | [] => .ok ([], [], [])
  | (name, fs) :: rest =>
    match fs.compile with
    | .error m => .error (.syntaxError m)
    | .ok u =>
      let errHere : List (Line × Line) :=
        match u.raises with
        | some m => [(name, m)]
        | none => []
      match preflight rest with
      | .error e => .error e
      | .ok (units, errs, evs) =>
        .ok ((name, u) :: units, errHere ++ errs,
             Ev.comp name :: Ev.run name 1 :: evs)

/-- The measurement loop (`src/perf_py/__init__.py` lines 284-296): for
each fragment in order, choose the iteration count, measure, subtract the
baseline cost, set the ratio denominator from the first measured cost, and
emit `(name, per-iteration cost, ratio)`.  A raised exception here is not
caught.  Returns the report rows and the events. -/
def timingLoop (explicit : Int) (thr : Int) (nsBase : ℚ) :
    Option ℚ → List (Line × LoadedUnit) →
    Except PyExc (List (Line × ℚ × ℚ)) × List Ev
  | _, [] => (.ok [], [])
  | baseline, (name, u) :: rest =>
    match measureRaw name explicit thr u with
    | .error e => (.error e, [])
    | .ok (raw, _, evs) =>
      let nsIter := raw - nsBase
      let bl := baseline.getD nsIter
      if bl = 0 then (.error .zeroDivisionError, evs)
      else
        let p := timingLoop explicit thr nsBase (some bl) rest
        (p.1.map (fun rows => (name, nsIter, nsIter / bl) :: rows),
         evs ++ p.2)

/-- How a benchmark run ends when no exception escapes: `return 1` after
the aggregated pre-flight error report, or the list of measured rows
`(name, per-iteration cost, ratio to the first row)`. -/
inductive Outcome where
  | failed (errors : List (Line × Line))
  | measured (rows : List (Line × ℚ × ℚ))
deriving DecidableEq

/-- `mode_benchmark` (`src/perf_py/__init__.py` lines 240-296): compute the
name-column width with `max(map(len, functions))` — an uncaught
`ValueError` on an empty mapping — normalize the threshold, pop and handle
the `base` fragment, pre-flight every remaining fragment (aggregating the
runtime errors and returning exit status 1 if there were any), then measure
and report every fragment.  Returns the outcome (or the escaping
exception) and the event log. -/
def mode_benchmark (args : Args) (functions : List (Line × FragSpec))
    (passTicks : Nat → Nat) : Except PyExc Outcome × List Ev :=
  if functions.isEmpty then (.error .valueError, [])
  else
    let thr := thresholdTicks args.threshold
    let popped := dictPop baseKey functions
    match basePhase args thr passTicks popped.1 with
    | .error e => (.error e, [])
    | .ok (nsBase, evsB) =>
      match preflight popped.2 with
      | .error e => (.error e, evsB)
      | .ok (units, errs, evsP) =>
        if errs ≠ [] then (.ok (.failed errs), evsB ++ evsP)
        else
          let p := timingLoop args.iterations thr nsBase none units
          (p.1.map .measured, evsB ++ evsP ++ p.2)

/-! ## Line predicates used by the general synthesis theorems -/

/-- A line as the extractor produces it from a file: it ends with a newline
and contains no interior newline. -/
abbrev cleanLine (l : Line) : Prop :=
  l.getLast? = some '\n' ∧ ∀ c ∈ l.dropLast, c ≠ '\n'

/-- A fragment body line: clean and indented by at least four spaces (the
indentation a line under a `def` header carries in the input document). -/
abbrev fragLine (l : Line) : Prop :=
  fourSpaces.isPrefixOf l = true ∧ cleanLine l

/-- A straight-line statement: neither a `return` nor a `continue` (nor a
line whose `lstrip` starts with `"return "`). -/
abbrev plainLine (l : Line) : Prop :=
  (classify l).isPlain = true ∧ ("return ".data).isPrefixOf (lstrip l) = false

/-- Is the statement a `return`? -/
def Stmt.isRet : Stmt → Bool
  | .ret _ => true
  | _ => false

/-- The expression text that `indent_strip_return` extracts from a
`return`-statement line: `line[wslen+2:-1].lstrip()` with
`wslen = len(line) - len(line.lstrip()) + 4`. -/
def returnExprOf (l : Line) : Line :=
  lstrip ((l.drop (l.length - (lstrip l).length + 4 + 2)).dropLast)

/-- A line the timing-mode rewrite renders loop-safe: it is clean; if it is
a `"return "`-style line its extracted expression is not itself a return
statement; and otherwise it is not a return statement at all. -/
abbrev retOkLine (l : Line) : Prop :=
  cleanLine l
  ∧ (classify (returnExprOf l)).isRet = false
  ∧ (("return ".data).isPrefixOf (lstrip l) = false → (classify l).isRet = false)

/-! ## Concrete scenarios referenced by witnesses and counterexamples -/

/-- A unit that never raises, with the given tick oracle. -/
def okUnit (f : Nat → Nat) : LoadedUnit := ⟨none, f⟩

/-- The extractor key of a first fragment `f`. -/
def keyF : Line := "1 f".data

/-- The extractor key of a second fragment `g`. -/
def keyG : Line := "2 g".data

/-- The extractor key of a re-defined fragment `f` (second definition). -/
def keyF2 : Line := "2 f".data

/-- The extractor key of a fragment `g` defined first. -/
def keyG1 : Line := "1 g".data

/-- The legacy extractor's key for a fragment `f` (no index prefix). -/
def keyFplain : Line := "f".data

/-- The legacy extractor's key for a fragment `g` (no index prefix). -/
def keyGplain : Line := "g".data

/-- Shorthand for the body-line condition of the extractor: the line starts
with a space or with a newline. -/
abbrev bodyish (l : Line) : Prop :=
  ([' '].isPrefixOf l || ['\n'].isPrefixOf l) = true

/-- Two fragments: the first one's synthesized source fails to compile, the
second one's unit raises when run. -/
def fnsCompileAndRaise : List (Line × FragSpec) :=
  [(keyF, ⟨["    x\n".data], .error ("invalid syntax".data)⟩),
   (keyG, ⟨["    y\n".data], .ok ⟨some ("NameError: nope".data), fun _ => 5⟩⟩)]

/-- Two fragments whose units both raise during the pre-flight run. -/
def fnsBothRaise : List (Line × FragSpec) :=
  [(keyF, ⟨["    x\n".data], .ok ⟨some ("E1".data), fun _ => 5⟩⟩),
   (keyG, ⟨["    y\n".data], .ok ⟨some ("E2".data), fun _ => 5⟩⟩)]

/-- A present `base` fragment with an empty body (as extracted from a
document whose `def base():` header is immediately followed by another
top-level line), plus one normal fragment. -/
def fnsEmptyBase : List (Line × FragSpec) :=
  [(baseKey, ⟨[], .ok (okUnit fun _ => 999)⟩),
   (keyF, ⟨["    x\n".data], .ok (okUnit fun _ => 30)⟩)]

/-- A `base` fragment measuring 20 ticks per iteration (40 ticks over the
2 explicit iterations) next to a fragment measuring 15, so that the
baseline-subtracted cost is negative. -/
def fnsNegBase : List (Line × FragSpec) :=
  [(baseKey, ⟨["    b\n".data], .ok (okUnit fun _ => 40)⟩),
   (keyF, ⟨["    x\n".data], .ok (okUnit fun _ => 30)⟩)]

/-- A document defining the same fragment name `f` twice. -/
def dupDoc : List Line :=
  ["def f():\n".data, "    a = 1\n".data, "def f():\n".data, "    b = 2\n".data]

/-- A fragment body whose loop part starts with a `continue` statement. -/
def contBody : List Line :=
  ["    x = 1\n".data, "    ###\n".data, "    continue\n".data, "    y = 2\n".data]

/-- The fragment containing only `return 1`. -/
def retOneBody : List Line := ["    return 1\n".data]

/-- The fragment containing only a bare `return`. -/
def bareRetBody : List Line := ["    return\n".data]

/-! # Theorems -/

/-- Helper: truncating a rational in `[0, 1)` toward zero gives `0`. -/
theorem pyTrunc_eq_zero {q : ℚ} (h0 : 0 ≤ q) (h1 : q < 1) : pyTrunc q = 0 := by
  apply Int.tdiv_eq_zero_of_lt
  · exact Rat.num_nonneg.mpr h0
  · have hd := Rat.den_pos q
    rw [← Rat.num_div_den q, div_lt_one (by exact_mod_cast hd)] at h1
    exact_mod_cast h1

/-- Helper: the calibration quotient is `0` as soon as the sampled timing
exceeds a thousand times the threshold. -/
theorem guessVal_eq_zero (thr : Int) (t : Nat) (h0 : 0 ≤ thr)
    (h : 1000 * thr < (t : Int)) : guessVal thr t = .ok 0 := by
  have ht : t ≠ 0 := by
    intro h'
    rw [h'] at h
    omega
  have htq : (0 : ℚ) < (t : ℚ) := by
    have : 0 < t := Nat.pos_of_ne_zero ht
    exact_mod_cast this
  have h0' : pyTrunc ((thr : ℚ) / (t : ℚ) * 1000) = 0 := by
    apply pyTrunc_eq_zero
    · have h0q : (0 : ℚ) ≤ (thr : ℚ) := by exact_mod_cast h0
      positivity
    · rw [div_mul_eq_mul_div, div_lt_one htq]
      have h' : thr * 1000 < (t : Int) := by linarith
      exact_mod_cast h'
  simp [guessVal, ht, h0']

/-- C2: every call to `benchmark_run` returns exactly the unit's own result
(normal value or raised exception) while the global garbage-collection
flag observed after the call equals the flag observed before it, on the
normal and the raising path alike. -/
theorem C2_gc_restored_on_every_path
    (function : Nat → Bool → Except Line Int × Bool)
    (iterations : Nat) (enable_gc : Bool) (g : Bool) :
    benchmark_run function iterations enable_gc g
      = ((function iterations (gc_set_state enable_gc g)).1, g) := by
  simp [benchmark_run, gc_set_state, gc_isenabled]

/-- C5: calibration runs the unit exactly once, with the fixed sample count
1 000, and returns the truncated value of `threshold / observed * 1000`;
and an explicit non-zero iteration count skips calibration entirely (no
sampling run, the explicit count is used as is). -/
theorem C5_single_shot_calibration (ticks : Nat → Nat) (threshold : Int)
    (h : ticks 1000 ≠ 0) :
    (guess_iterations ticks threshold
      = (.ok (pyTrunc ((threshold : ℚ) / (ticks 1000 : ℚ) * 1000)), [1000]))
    ∧ ∀ (name : Line) (explicit thr : Int) (u : LoadedUnit),
        explicit ≠ 0 → chooseIters name explicit thr u = .ok (explicit, []) := by
  constructor
  · simp [guess_iterations, guessVal, h]
  · intro name explicit thr u hne
    simp [chooseIters, hne]

/-- Witness for C5: a unit whose 1 000-iteration sample takes 500 000 ticks
is calibrated, in one run, to 2 000 000 iterations for a one-second
threshold; and an explicit count of 50 is used without any sampling. -/
theorem C5_single_shot_calibration_witness :
    (guess_iterations (fun _ => 500000) 1000000000 = (.ok 2000000, [1000]))
    ∧ chooseIters [] 50 7 ⟨none, fun _ => 3⟩ = .ok (50, []) := by
  have h := C5_single_shot_calibration (fun _ => 500000) 1000000000 (by decide)
  refine ⟨?_, h.2 [] 50 7 ⟨none, fun _ => 3⟩ (by decide)⟩
  rw [h.1]
  norm_num [pyTrunc]

/-- C10: the calibrator guarantees no positive iteration count — whenever
the 1 000-iteration sample takes strictly more than 1 000 times the
threshold, the extrapolated count is `0`, and the per-iteration cost
computation of the measurement phase then divides by zero
(`ZeroDivisionError`); and `guess_iterations` itself divides by zero when
the sample elapses `0` ticks. -/
theorem C10_calibration_zero_divisions :
    (∀ (thr : Int) (t : Nat), 0 ≤ thr → 1000 * thr < (t : Int) →
      guessVal thr t = .ok 0)
    ∧ (∀ (name : Line) (thr : Int) (u : LoadedUnit), u.raises = none →
        0 ≤ thr → 1000 * thr < (u.ticks 1000 : Int) →
        measureRaw name 0 thr u = .error .zeroDivisionError)
    ∧ (∀ (ticks : Nat → Nat) (thr : Int), ticks 1000 = 0 →
        guess_iterations ticks thr = (.error .zeroDivisionError, [1000])) := by
  refine ⟨guessVal_eq_zero, ?_, ?_⟩
  · intro name thr u hn h0 h
    simp [measureRaw, chooseIters, runUnit, hn, guessVal_eq_zero thr _ h0 h]
  · intro ticks thr h
    simp [guess_iterations, guessVal, h]

/-- Witness for C10: with threshold 5 and a 5 001-tick sample the
calibrator returns 0 iterations and the measurement then raises
`ZeroDivisionError`; with a 0-tick sample the calibrator itself raises
`ZeroDivisionError`. -/
theorem C10_calibration_zero_divisions_witness :
    guessVal 5 5001 = .ok 0
    ∧ measureRaw keyF 0 5 ⟨none, fun _ => 5001⟩ = .error .zeroDivisionError
    ∧ guess_iterations (fun _ => 0) 7 = (.error .zeroDivisionError, [1000]) :=
  ⟨C10_calibration_zero_divisions.1 5 5001 (by decide) (by decide),
   C10_calibration_zero_divisions.2.1 keyF 5 ⟨none, fun _ => 5001⟩ rfl
     (by decide) (by decide),
   C10_calibration_zero_divisions.2.2 (fun _ => 0) 7 rfl⟩

/-- C7 (amended): a run over a document with zero qualifying fragments is
rejected before any compilation attempt — the event log is empty — but not
by a reported `ParseError`: the name-column computation
`max(map(len, functions))` raises an uncaught `ValueError` on the empty
mapping. -/
theorem C7_empty_document_valueerror :
    extract_code [] = ([], [])
    ∧ ∀ (args : Args) (passTicks : Nat → Nat),
        mode_benchmark args [] passTicks = (.error .valueError, []) := by
  refine ⟨rfl, ?_⟩
  intro args passTicks
  simp [mode_benchmark]

/-- Counterexample for C7: on the empty fragment mapping of an empty
document the run does not report a `ParseError`-style configuration error;
it dies with an uncaught `ValueError` (and no unit was compiled or run:
the event log is empty). -/
theorem C7_counterexample :
    mode_benchmark ⟨0, 0, false, true⟩ [] (fun _ => 1)
      = (.error .valueError, []) := by
  simp [mode_benchmark]

/-- Helper: a successful pre-flight pass compiled every fragment in order,
collected exactly the raising fragments' errors (with their names), and
logged one compile event and one single-iteration run per fragment. -/
theorem preflight_ok {fs : List (Line × FragSpec)}
    {units : List (Line × LoadedUnit)} {errs : List (Line × Line)}
    {evs : List Ev} (h : preflight fs = .ok (units, errs, evs)) :
    List.Forall₂ (fun (q : Line × LoadedUnit) (p : Line × FragSpec) =>
        q.1 = p.1 ∧ p.2.compile = .ok q.2) units fs
    ∧ errs = fs.filterMap (fun p =>
        match p.2.compile with
        | .ok u => u.raises.map (fun m => (p.1, m))
        | .error _ => none)
    ∧ evs = fs.flatMap (fun p => [Ev.comp p.1, Ev.run p.1 1])
    ∧ (errs = [] → ∀ q ∈ units, q.2.raises = none) := by
  induction fs generalizing units errs evs with
  | nil =>
    simp only [preflight, Except.ok.injEq, Prod.mk.injEq] at h
    obtain ⟨h1, h2, h3⟩ := h
    subst h1; subst h2; subst h3
    simp
  | cons p rest ih =>
    simp only [preflight] at h
    cases hc : p.2.compile with
    | error m => rw [hc] at h; cases h
    | ok u =>
      rw [hc] at h
      cases hp : preflight rest with
      | error e => rw [hp] at h; cases h
      | ok trip =>
        obtain ⟨units', errs', evs'⟩ := trip
        rw [hp] at h
        simp only [Except.ok.injEq, Prod.mk.injEq] at h
        obtain ⟨h1, h2, h3⟩ := h
        obtain ⟨ih1, ih2, ih3, ih4⟩ := ih hp
        subst h1; subst h2; subst h3
        refine ⟨List.Forall₂.cons ⟨rfl, hc⟩ ih1, ?_, ?_, ?_⟩
        · rw [List.filterMap_cons, hc]
          cases hr : u.raises <;> simp [hr, ih2]
        · simp [ih3]
        · intro hnil q hq
          cases hr : u.raises with
          | some m => rw [hr] at hnil; cases hnil
          | none =>
            rw [hr] at hnil
            simp only [List.nil_append] at hnil
            rcases List.mem_cons.mp hq with h' | h'
            · rw [h']; exact hr
            · exact ih4 hnil q h'

/-- C1 (amended): when every fragment compiles, every fragment that raises
during its single-iteration pre-flight run is reported with its name and
message, all such errors are collected for all fragments and reported
together, and the run exits with failure status (`return 1`) without
timing-measuring any fragment — every run event of the whole log used one
iteration.  (A fragment whose synthesized source fails to compile instead
aborts the run with an uncaught exception, see the counterexample.) -/
theorem C1_preflight_runtime_errors_aggregated
    (args : Args) (functions : List (Line × FragSpec)) (passTicks : Nat → Nat)
    (units : List (Line × LoadedUnit)) (errs : List (Line × Line))
    (evs : List Ev)
    (hbase : dictPop baseKey functions = (none, functions))
    (hloop : args.loop = false)
    (hpre : preflight functions = .ok (units, errs, evs))
    (herr : errs ≠ []) :
    mode_benchmark args functions passTicks = (.ok (.failed errs), evs)
    ∧ errs = functions.filterMap (fun p =>
        match p.2.compile with
        | .ok u => u.raises.map (fun m => (p.1, m))
        | .error _ => none)
    ∧ ∀ ev ∈ evs, (∃ nm, ev = Ev.comp nm) ∨ ∃ nm, ev = Ev.run nm 1 := by
  obtain ⟨hfa, herrs, hevs, -⟩ := preflight_ok hpre
  have hne : functions ≠ [] := by
    intro h'
    subst h'
    simp only [preflight, Except.ok.injEq, Prod.mk.injEq] at hpre
    exact herr hpre.2.1.symm
  refine ⟨?_, herrs, ?_⟩
  · simp only [mode_benchmark]
    rw [show functions.isEmpty = false from List.isEmpty_eq_false.mpr hne]
    simp only [Bool.false_eq_true, if_false, hbase]
    simp only [basePhase, basePhaseFallback, hloop, Bool.false_eq_true, if_false, hpre]
    rw [if_pos herr]
    simp
  · intro ev hev
    rw [hevs] at hev
    rcases List.mem_flatMap.mp hev with ⟨p, -, hp⟩
    rcases List.mem_cons.mp hp with h' | h'
    · exact Or.inl ⟨p.1, h'⟩
    · rcases List.mem_cons.mp h' with h'' | h''
      · exact Or.inr ⟨p.1, h''⟩
      · cases h''

/-- Witness for C1: two fragments that both raise during pre-flight are
both reported, together, and the run fails without any timing run — the
log holds only the two compiles and the two single-iteration runs. -/
theorem C1_preflight_runtime_errors_aggregated_witness :
    mode_benchmark ⟨0, 0, false, false⟩ fnsBothRaise (fun _ => 1)
      = (.ok (.failed [(keyF, "E1".data), (keyG, "E2".data)]),
         [Ev.comp keyF, Ev.run keyF 1, Ev.comp keyG, Ev.run keyG 1]) :=
  (C1_preflight_runtime_errors_aggregated ⟨0, 0, false, false⟩ fnsBothRaise
    (fun _ => 1)
    [(keyF, ⟨some ("E1".data), fun _ => 5⟩), (keyG, ⟨some ("E2".data), fun _ => 5⟩)]
    [(keyF, "E1".data), (keyG, "E2".data)]
    [Ev.comp keyF, Ev.run keyF 1, Ev.comp keyG, Ev.run keyG 1]
    rfl rfl rfl (by decide)).1

/-- Counterexample for C1: with a first fragment whose synthesized source
fails to compile and a second whose unit raises, the run aborts at the
first fragment with an uncaught `SyntaxError` — no aggregated per-fragment
report is produced (the second fragment's error is never collected) and
the event log is empty. -/
theorem C1_counterexample :
    mode_benchmark ⟨0, 0, false, false⟩ fnsCompileAndRaise (fun _ => 1)
      = (.error (.syntaxError ("invalid syntax".data)), [])
    ∧ ∀ errs, (mode_benchmark ⟨0, 0, false, false⟩ fnsCompileAndRaise
        (fun _ => 1)).1 ≠ .ok (.failed errs) := by
  constructor
  · rfl
  · intro errs h
    rw [show (mode_benchmark ⟨0, 0, false, false⟩ fnsCompileAndRaise
        (fun _ => 1)).1 = .error (.syntaxError ("invalid syntax".data)) from rfl] at h
    cases h

/-- C9 (amended): while a fragment cursor is active, a non-`def ` line that
starts with a space or a newline is appended to that fragment's body; any
other non-`def ` line — including tab-indented and tab-blank lines — closes
the fragment (cursor reset to none) and is appended to the setup block; and
with no active cursor every non-`def ` line is appended to the setup
block. -/
theorem C9_extractor_line_dispatch (st : XState) (line : Line)
    (hdef : defPrefix.isPrefixOf line = false) :
    (∀ k, st.name = some k →
      (bodyish line →
        extractStep st line
          = { st with functions := dictAppend k line st.functions })
      ∧ (¬ bodyish line →
        extractStep st line
          = { st with name := none, setup := st.setup ++ [line] }))
    ∧ (st.name = none →
        extractStep st line = { st with setup := st.setup ++ [line] }) := by
  refine ⟨fun k hk => ⟨fun hcond => ?_, fun hcond => ?_⟩, fun hk => ?_⟩
  · have hc : ([' '].isPrefixOf line || ['\n'].isPrefixOf line) = true := hcond
    simp [extractStep, hdef, hk, hc]
  · have hc : ([' '].isPrefixOf line || ['\n'].isPrefixOf line) = false := by
      simp only [bodyish] at hcond
      exact Bool.not_eq_true _ ▸ Bool.eq_false_iff.mpr hcond
    simp [extractStep, hdef, hk, hc]
  · simp [extractStep, hdef, hk]

/-- Witness for C9: with a cursor active on `1 f`, the space-indented line
`    a = 1` joins the body, while the unindented line `x = 1` closes the
fragment and joins setup; with no cursor, `y = 1` joins setup. -/
theorem C9_extractor_line_dispatch_witness :
    extractStep ⟨some keyF, 1, [], [(keyF, [])]⟩ ("    a = 1\n".data)
      = ⟨some keyF, 1, [], [(keyF, ["    a = 1\n".data])]⟩
    ∧ extractStep ⟨some keyF, 1, [], [(keyF, [])]⟩ ("x = 1\n".data)
      = ⟨none, 1, ["x = 1\n".data], [(keyF, [])]⟩
    ∧ extractStep ⟨none, 1, [], [(keyF, [])]⟩ ("y = 1\n".data)
      = ⟨none, 1, ["y = 1\n".data], [(keyF, [])]⟩ := by
  refine ⟨?_, ?_, ?_⟩
  · exact ((C9_extractor_line_dispatch ⟨some keyF, 1, [], [(keyF, [])]⟩
      ("    a = 1\n".data) (by decide)).1 keyF rfl).1 (by decide)
  · exact ((C9_extractor_line_dispatch ⟨some keyF, 1, [], [(keyF, [])]⟩
      ("x = 1\n".data) (by decide)).1 keyF rfl).2 (by decide)
  · exact (C9_extractor_line_dispatch ⟨none, 1, [], [(keyF, [])]⟩
      ("y = 1\n".data) (by decide)).2 rfl

/-- Counterexample for C9: a tab-indented line read while a cursor is
active is an indented line, yet the extractor does not append it to the
fragment's body — it closes the fragment and sends the line to setup,
because the test is literally `line.startswith((" ", "\n"))`. -/
theorem C9_counterexample :
    extractStep ⟨some keyF, 1, [], [(keyF, [])]⟩ ("\tz = 1\n".data)
      = ⟨none, 1, ["\tz = 1\n".data], [(keyF, [])]⟩
    ∧ extractStep ⟨some keyF, 1, [], [(keyF, [])]⟩ ("\tz = 1\n".data)
      ≠ ⟨some keyF, 1, [], [(keyF, ["\tz = 1\n".data])]⟩ := by decide

/-- Helper: a line starting with a space or a newline does not start with
`"def "`. -/
theorem bodyish_not_def {l : Line} (h : bodyish l) :
    defPrefix.isPrefixOf l = false := by
  cases l with
  | nil => simp [bodyish, List.isPrefixOf] at h
  | cons c cs =>
    have h' : ' ' = c ∨ '\n' = c := by
      simpa [bodyish, List.isPrefixOf] using h
    rcases h' with h' | h' <;> subst h' <;> simp [defPrefix, List.isPrefixOf]

/-- Helper: the extractor appends a body-shaped line to the active
fragment. -/
theorem extractStep_bodyline (st : XState) (k l : Line) (hk : st.name = some k)
    (hl : bodyish l) :
    extractStep st l = { st with functions := dictAppend k l st.functions } := by
  have hc : ([' '].isPrefixOf l || ['\n'].isPrefixOf l) = true := hl
  simp [extractStep, bodyish_not_def hl, hk, hc]

/-- Helper: scanning a run of body-shaped lines appends them all, in order,
to the active fragment's body. -/
theorem foldl_extractStep_body (body : List Line) (st : XState) (k : Line)
    (hk : st.name = some k) (hb : ∀ l ∈ body, bodyish l) :
    body.foldl extractStep st
      = { st with functions :=
            body.foldl (fun d l => dictAppend k l d) st.functions } := by
  induction body generalizing st with
  | nil => simp
  | cons l rest ih =>
    simp only [List.foldl_cons]
    rw [extractStep_bodyline st k l hk (hb l (by simp))]
    exact ih { st with functions := dictAppend k l st.functions } hk
      (fun x hx => hb x (by simp [hx]))

/-- Helper: the legacy extractor appends a body-shaped line to the active
fragment. -/
theorem extractStepOld_bodyline (st : XState) (k l : Line)
    (hk : st.name = some k) (hl : bodyish l) :
    extractStepOld st l
      = { st with functions := dictAppend k l st.functions } := by
  have hc : ([' '].isPrefixOf l || ['\n'].isPrefixOf l) = true := hl
  simp [extractStepOld, bodyish_not_def hl, hk, hc]

/-- Helper: scanning a run of body-shaped lines with the legacy extractor
appends them all to the active fragment's body. -/
theorem foldl_extractStepOld_body (body : List Line) (st : XState) (k : Line)
    (hk : st.name = some k) (hb : ∀ l ∈ body, bodyish l) :
    body.foldl extractStepOld st
      = { st with functions :=
            body.foldl (fun d l => dictAppend k l d) st.functions } := by
  induction body generalizing st with
  | nil => simp
  | cons l rest ih =>
    simp only [List.foldl_cons]
    rw [extractStepOld_bodyline st k l hk (hb l (by simp))]
    exact ih { st with functions := dictAppend k l st.functions } hk
      (fun x hx => hb x (by simp [hx]))

/-- Helper: `dict` append on a mapping whose key `k` sits after a prefix of
other keys extends exactly the value stored under `k`. -/
theorem dictAppend_shape (k b : Line) (pre post : FragMap) (v : List Line)
    (hpre : ∀ p ∈ pre, p.1 ≠ k) :
    dictAppend k b (pre ++ (k, v) :: post) = pre ++ (k, v ++ [b]) :: post := by
  induction pre with
  | nil => simp [dictAppend]
  | cons p rest ih =>
    obtain ⟨k', v'⟩ := p
    simp only [List.cons_append, dictAppend]
    rw [if_neg (hpre (k', v') (by simp))]
    simp only [List.append_eq]
    rw [ih (fun q hq => hpre q (by simp [hq]))]

/-- Helper: folding a run of `dict` appends under key `k` extends the value
stored under `k` by the whole run. -/
theorem foldl_dictAppend_shape (k : Line) (bs : List Line) (pre post : FragMap)
    (v : List Line) (hpre : ∀ p ∈ pre, p.1 ≠ k) :
    bs.foldl (fun d l => dictAppend k l d) (pre ++ (k, v) :: post)
      = pre ++ (k, v ++ bs) :: post := by
  induction bs generalizing v with
  | nil => simp
  | cons b rest ih =>
    simp only [List.foldl_cons]
    rw [dictAppend_shape k b pre post v hpre, ih (v ++ [b])]
    simp

/-- Helper: `d[k] = v` on a mapping without key `k` appends the entry. -/
theorem dictSet_fresh (k : Line) (v : List Line) (d : FragMap)
    (h : ∀ p ∈ d, p.1 ≠ k) : dictSet k v d = d ++ [(k, v)] := by
  induction d with
  | nil => simp [dictSet]
  | cons p rest ih =>
    obtain ⟨k', v'⟩ := p
    simp only [List.cons_append, dictSet]
    rw [if_neg (h (k', v') (by simp))]
    rw [ih (fun q hq => h q (by simp [hq]))]

/-- Helper: `d[k] = v` on a mapping holding key `k` replaces the value in
place, keeping the entry's position. -/
theorem dictSet_shape (k : Line) (newv v : List Line) (pre post : FragMap)
    (hpre : ∀ p ∈ pre, p.1 ≠ k) :
    dictSet k newv (pre ++ (k, v) :: post) = pre ++ (k, newv) :: post := by
  induction pre with
  | nil => simp [dictSet]
  | cons p rest ih =>
    obtain ⟨k', v'⟩ := p
    simp only [List.cons_append, dictSet]
    rw [if_neg (hpre (k', v') (by simp))]
    simp only [List.append_eq]
    rw [ih (fun q hq => hpre q (by simp [hq]))]

/-- Helper: a singleton mapping whose key differs from `k` has no entry
with key `k`. -/
theorem pair_fst_ne {k k' : Line} (h : k ≠ k') (v : List Line) :
    ∀ p ∈ [(k, v)], p.1 ≠ k' := by
  intro p hp
  simp only [List.mem_singleton] at hp
  rw [hp]
  exact h

/-- Helper: a document that defines `base`, then `g`, then `base` again
extracts to a mapping with one `base` entry, at the first occurrence's
position, holding the second definition's body. -/
theorem extract_dup_base (b1 b2 g1 : List Line) (hb1 : ∀ l ∈ b1, bodyish l)
    (hb2 : ∀ l ∈ b2, bodyish l) (hg1 : ∀ l ∈ g1, bodyish l) :
    extract_code (["def base():\n".data] ++ b1 ++ ["def g():\n".data] ++ g1
        ++ ["def base():\n".data] ++ b2)
      = ([], [(baseKey, b2), (keyG1, g1)]) := by
  simp only [extract_code, List.foldl_append, List.foldl_cons, List.foldl_nil]
  rw [show extractStep ⟨none, 0, [], []⟩ ("def base():\n".data)
      = ⟨some baseKey, 0, [], [(baseKey, [])]⟩ from rfl]
  rw [foldl_extractStep_body b1 _ baseKey rfl hb1]
  rw [show b1.foldl (fun d l => dictAppend baseKey l d) [(baseKey, [])]
      = [(baseKey, b1)] from by
    simpa using foldl_dictAppend_shape baseKey b1 [] [] [] (by simp)]
  rw [show extractStep ⟨some baseKey, 0, [], [(baseKey, b1)]⟩ ("def g():\n".data)
      = ⟨some (natChars 1 ++ ' ' :: "g".data), 1, [],
         dictSet (natChars 1 ++ ' ' :: "g".data) [] [(baseKey, b1)]⟩ from rfl]
  rw [show (natChars 1 ++ ' ' :: "g".data : Line) = keyG1 from by decide]
  rw [show dictSet keyG1 [] [(baseKey, b1)] = [(baseKey, b1), (keyG1, [])] from by
    simpa using dictSet_fresh keyG1 [] [(baseKey, b1)] (pair_fst_ne (by decide) _)]
  rw [foldl_extractStep_body g1 _ keyG1 rfl hg1]
  rw [show g1.foldl (fun d l => dictAppend keyG1 l d) [(baseKey, b1), (keyG1, [])]
      = [(baseKey, b1), (keyG1, g1)] from by
    simpa using foldl_dictAppend_shape keyG1 g1 [(baseKey, b1)] [] [] (pair_fst_ne (by decide) _)]
  rw [show extractStep ⟨some keyG1, 1, [], [(baseKey, b1), (keyG1, g1)]⟩
        ("def base():\n".data)
      = ⟨some baseKey, 1, [], dictSet baseKey [] [(baseKey, b1), (keyG1, g1)]⟩
      from rfl]
  rw [show dictSet baseKey [] [(baseKey, b1), (keyG1, g1)]
      = [(baseKey, []), (keyG1, g1)] from by
    simpa using dictSet_shape baseKey [] b1 [] [(keyG1, g1)] (by simp)]
  rw [foldl_extractStep_body b2 _ baseKey rfl hb2]
  rw [show b2.foldl (fun d l => dictAppend baseKey l d) [(baseKey, []), (keyG1, g1)]
      = [(baseKey, b2), (keyG1, g1)] from by
    simpa using foldl_dictAppend_shape baseKey b2 [] [(keyG1, g1)] [] (by simp)]

/-- Helper: a document that defines a non-`base` fragment `f` twice
extracts to two separate entries, `1 f` with the first body and `2 f` with
the second body. -/
theorem extract_dup_f (b1 b2 : List Line) (hb1 : ∀ l ∈ b1, bodyish l)
    (hb2 : ∀ l ∈ b2, bodyish l) :
    extract_code (["def f():\n".data] ++ b1 ++ ["def f():\n".data] ++ b2)
      = ([], [(keyF, b1), (keyF2, b2)]) := by
  simp only [extract_code, List.foldl_append, List.foldl_cons, List.foldl_nil]
  rw [show extractStep ⟨none, 0, [], []⟩ ("def f():\n".data)
      = ⟨some keyF, 1, [], [(keyF, [])]⟩ from rfl]
  rw [foldl_extractStep_body b1 _ keyF rfl hb1]
  rw [show b1.foldl (fun d l => dictAppend keyF l d) [(keyF, [])]
      = [(keyF, b1)] from by
    simpa using foldl_dictAppend_shape keyF b1 [] [] [] (by simp)]
  rw [show extractStep ⟨some keyF, 1, [], [(keyF, b1)]⟩ ("def f():\n".data)
      = ⟨some (natChars 2 ++ ' ' :: "f".data), 2, [],
         dictSet (natChars 2 ++ ' ' :: "f".data) [] [(keyF, b1)]⟩ from rfl]
  rw [show (natChars 2 ++ ' ' :: "f".data : Line) = keyF2 from by decide]
  rw [show dictSet keyF2 [] [(keyF, b1)] = [(keyF, b1), (keyF2, [])] from by
    simpa using dictSet_fresh keyF2 [] [(keyF, b1)] (pair_fst_ne (by decide) _)]
  rw [foldl_extractStep_body b2 _ keyF2 rfl hb2]
  rw [show b2.foldl (fun d l => dictAppend keyF2 l d) [(keyF, b1), (keyF2, [])]
      = [(keyF, b1), (keyF2, b2)] from by
    simpa using foldl_dictAppend_shape keyF2 b2 [(keyF, b1)] [] [] (pair_fst_ne (by decide) _)]

/-- Helper: in the legacy extractor a document defining `f`, then `g`, then
`f` again extracts to one `f` entry at the first occurrence's position
holding the last definition's body. -/
theorem extract_dup_f_old (b1 b2 g1 : List Line) (hb1 : ∀ l ∈ b1, bodyish l)
    (hb2 : ∀ l ∈ b2, bodyish l) (hg1 : ∀ l ∈ g1, bodyish l) :
    extract_code_old (["def f():\n".data] ++ b1 ++ ["def g():\n".data] ++ g1
        ++ ["def f():\n".data] ++ b2)
      = ([], [(keyFplain, b2), (keyGplain, g1)]) := by
  simp only [extract_code_old, List.foldl_append, List.foldl_cons, List.foldl_nil]
  rw [show extractStepOld ⟨none, 0, [], []⟩ ("def f():\n".data)
      = ⟨some keyFplain, 0, [], [(keyFplain, [])]⟩ from rfl]
  rw [foldl_extractStepOld_body b1 _ keyFplain rfl hb1]
  rw [show b1.foldl (fun d l => dictAppend keyFplain l d) [(keyFplain, [])]
      = [(keyFplain, b1)] from by
    simpa using foldl_dictAppend_shape keyFplain b1 [] [] [] (by simp)]
  rw [show extractStepOld ⟨some keyFplain, 0, [], [(keyFplain, b1)]⟩
        ("def g():\n".data)
      = ⟨some keyGplain, 0, [], dictSet keyGplain [] [(keyFplain, b1)]⟩ from rfl]
  rw [show dictSet keyGplain [] [(keyFplain, b1)]
      = [(keyFplain, b1), (keyGplain, [])] from by
    simpa using dictSet_fresh keyGplain [] [(keyFplain, b1)] (pair_fst_ne (by decide) _)]
  rw [foldl_extractStepOld_body g1 _ keyGplain rfl hg1]
  rw [show g1.foldl (fun d l => dictAppend keyGplain l d)
        [(keyFplain, b1), (keyGplain, [])]
      = [(keyFplain, b1), (keyGplain, g1)] from by
    simpa using foldl_dictAppend_shape keyGplain g1 [(keyFplain, b1)] [] [] (pair_fst_ne (by decide) _)]
  rw [show extractStepOld ⟨some keyGplain, 0, [],
        [(keyFplain, b1), (keyGplain, g1)]⟩ ("def f():\n".data)
      = ⟨some keyFplain, 0, [],
         dictSet keyFplain [] [(keyFplain, b1), (keyGplain, g1)]⟩ from rfl]
  rw [show dictSet keyFplain [] [(keyFplain, b1), (keyGplain, g1)]
      = [(keyFplain, []), (keyGplain, g1)] from by
    simpa using dictSet_shape keyFplain [] b1 [] [(keyGplain, g1)] (by simp)]
  rw [foldl_extractStepOld_body b2 _ keyFplain rfl hb2]
  rw [show b2.foldl (fun d l => dictAppend keyFplain l d)
        [(keyFplain, []), (keyGplain, g1)]
      = [(keyFplain, b2), (keyGplain, g1)] from by
    simpa using foldl_dictAppend_shape keyFplain b2 [] [(keyGplain, g1)] []
      (by simp)]

/-- C8 (amended): in the current extractor only a duplicated `base`
fragment follows last-definition-wins-at-first-occurrence; a duplicated
non-`base` name receives a fresh index-prefixed key per definition, so
both definitions survive as separate entries with their own bodies.  The
legacy extractor (`src/perf.py`) follows last-definition-wins at the first
occurrence's position for every name. -/
theorem C8_duplicate_name_semantics :
    (∀ b1 b2 g1 : List Line, (∀ l ∈ b1, bodyish l) → (∀ l ∈ b2, bodyish l) →
      (∀ l ∈ g1, bodyish l) →
      extract_code (["def base():\n".data] ++ b1 ++ ["def g():\n".data] ++ g1
          ++ ["def base():\n".data] ++ b2)
        = ([], [(baseKey, b2), (keyG1, g1)]))
    ∧ (∀ b1 b2 : List Line, (∀ l ∈ b1, bodyish l) → (∀ l ∈ b2, bodyish l) →
      extract_code (["def f():\n".data] ++ b1 ++ ["def f():\n".data] ++ b2)
        = ([], [(keyF, b1), (keyF2, b2)]))
    ∧ (∀ b1 b2 g1 : List Line, (∀ l ∈ b1, bodyish l) → (∀ l ∈ b2, bodyish l) →
      (∀ l ∈ g1, bodyish l) →
      extract_code_old (["def f():\n".data] ++ b1 ++ ["def g():\n".data] ++ g1
          ++ ["def f():\n".data] ++ b2)
        = ([], [(keyFplain, b2), (keyGplain, g1)])) :=
  ⟨extract_dup_base, extract_dup_f, extract_dup_f_old⟩

/-- Witness for C8: concrete one-line bodies instantiating the three
duplicate-name behaviours. -/
theorem C8_duplicate_name_semantics_witness :
    extract_code (["def base():\n".data] ++ ["    a\n".data]
        ++ ["def g():\n".data] ++ ["    c\n".data]
        ++ ["def base():\n".data] ++ ["    b\n".data])
      = ([], [(baseKey, ["    b\n".data]), (keyG1, ["    c\n".data])])
    ∧ extract_code (["def f():\n".data] ++ ["    a\n".data]
        ++ ["def f():\n".data] ++ ["    b\n".data])
      = ([], [(keyF, ["    a\n".data]), (keyF2, ["    b\n".data])])
    ∧ extract_code_old (["def f():\n".data] ++ ["    a\n".data]
        ++ ["def g():\n".data] ++ ["    c\n".data]
        ++ ["def f():\n".data] ++ ["    b\n".data])
      = ([], [(keyFplain, ["    b\n".data]), (keyGplain, ["    c\n".data])]) :=
  ⟨C8_duplicate_name_semantics.1 ["    a\n".data] ["    b\n".data]
      ["    c\n".data] (by decide) (by decide) (by decide),
   C8_duplicate_name_semantics.2.1 ["    a\n".data] ["    b\n".data]
      (by decide) (by decide),
   C8_duplicate_name_semantics.2.2 ["    a\n".data] ["    b\n".data]
      ["    c\n".data] (by decide) (by decide) (by decide)⟩

/-- Counterexample for C8: the current extractor maps a document defining
`f` twice to TWO entries (`1 f` with the first body, `2 f` with the
second), not to one entry for that name holding the last definition's
body. -/
theorem C8_counterexample :
    extract_code dupDoc
      = ([], [(keyF, ["    a = 1\n".data]), (keyF2, ["    b = 2\n".data])])
    ∧ (extract_code dupDoc).2.length ≠ 1 := by decide

/-! ## Lemmas about stripping, physical lines and straight-line execution -/

/-- Helper: dropping while `p` over a run that wholly satisfies `p` skips
the run. -/
theorem dropWhile_append_all {p : Char → Bool} {a b : Line}
    (ha : ∀ c ∈ a, p c = true) :
    (a ++ b).dropWhile p = b.dropWhile p := by
  rw [List.dropWhile_append]
  rw [List.dropWhile_eq_nil_iff.mpr ha]
  simp

/-- Helper: `strip` ignores a whitespace run prepended to the text. -/
theorem strip_prepend_ws {ws l : Line} (h : ∀ c ∈ ws, pyIsSpace c = true) :
    strip (ws ++ l) = strip l := by
  simp only [strip, rstripWS]
  rw [List.reverse_append]
  rw [List.dropWhile_append]
  cases hrev : (l.reverse.dropWhile pyIsSpace).isEmpty with
  | true =>
    have hl : l.reverse.dropWhile pyIsSpace = [] := List.isEmpty_iff.mp hrev
    have hw : ws.reverse.dropWhile pyIsSpace = [] :=
      List.dropWhile_eq_nil_iff.mpr (fun c hc => h c (List.mem_reverse.mp hc))
    simp [hrev, hl, hw]
  | false =>
    simp only [hrev, Bool.false_eq_true, if_false]
    rw [List.reverse_append, List.reverse_reverse]
    simp only [lstrip]
    exact dropWhile_append_all h

/-- Helper: `strip` ignores a whitespace run appended to the text. -/
theorem strip_append_ws {ws l : Line} (h : ∀ c ∈ ws, pyIsSpace c = true) :
    strip (l ++ ws) = strip l := by
  simp only [strip, rstripWS]
  rw [List.reverse_append]
  rw [dropWhile_append_all (fun c hc => h c (List.mem_reverse.mp hc))]

/-- Helper: `classify` only looks at the stripped form of a line. -/
theorem classify_congr {a b : Line} (h : strip a = strip b) :
    classify a = classify b := by
  simp only [classify, h]

/-- Helper: `strip` ignores a trailing newline. -/
theorem strip_concat_nl (l : Line) : strip (l ++ ['\n']) = strip l :=
  strip_append_ws (by intro c hc; simp at hc; rw [hc]; rfl)

/-- Helper: a clean line is its own last-dropped form plus a newline. -/
theorem cleanLine_decomp {l : Line} (h : cleanLine l) :
    l = l.dropLast ++ ['\n'] := by
  obtain ⟨hlast, -⟩ := h
  have hne : l ≠ [] := by intro h'; rw [h'] at hlast; cases hlast
  have hd := List.dropLast_append_getLast hne
  have : l.getLast hne = '\n' := by
    have h2 : l.getLast? = some (l.getLast hne) := by
      conv_lhs => rw [← hd]
      rw [List.getLast?_concat]
    rw [hlast] at h2
    exact (Option.some.injEq _ _ ▸ h2).symm
  rw [← this]
  exact hd.symm

/-- Helper: stripping a clean line equals stripping it without its trailing
newline. -/
theorem strip_dropLast {l : Line} (h : cleanLine l) :
    strip l.dropLast = strip l := by
  conv_rhs => rw [cleanLine_decomp h]
  rw [strip_concat_nl]

/-- Helper: `splitNl` never returns an empty list of pieces. -/
theorem splitNl_ne_nil : ∀ l : Line, splitNl l ≠ []
  | [] => by simp [splitNl]
  | c :: rest => by
    simp only [splitNl]
    split
    · simp
    · split
      · simp
      · simp

/-- Helper: a non-newline head char joins the first piece of the split. -/
theorem splitNl_cons_not_nl {c : Char} (hc : ¬ c = '\n') (l : Line) :
    splitNl (c :: l) = (c :: (splitNl l).headI) :: (splitNl l).tail := by
  simp only [splitNl, if_neg hc]
  cases h : splitNl l with
  | nil => exact absurd h (splitNl_ne_nil l)
  | cons a t => simp [List.headI]

/-- Helper: a newline-free run prepended to text joins the first piece of
the split. -/
theorem splitNl_append_not_nl (a : Line) (b : Line)
    (ha : ∀ c ∈ a, ¬ c = '\n') :
    splitNl (a ++ b) = (a ++ (splitNl b).headI) :: (splitNl b).tail := by
  induction a with
  | nil =>
    cases h : splitNl b with
    | nil => exact absurd h (splitNl_ne_nil b)
    | cons x t => simp [h, List.headI]
  | cons c rest ih =>
    have hc : ¬ c = '\n' := ha c (by simp)
    simp only [List.cons_append]
    rw [splitNl_cons_not_nl hc]
    rw [ih (fun x hx => ha x (by simp [hx]))]
    simp [List.headI]

/-- Helper: the physical lines of a clean line are the line without its
trailing newline. -/
theorem physLines_clean {l : Line} (h : cleanLine l) :
    physLines l = [l.dropLast] := by
  conv_lhs => rw [cleanLine_decomp h]
  simp only [physLines]
  rw [splitNl_append_not_nl l.dropLast ['\n'] h.2]
  simp [splitNl, List.headI]

/-- Helper: the physical lines of a region of clean lines are the lines
without their trailing newlines. -/
theorem physList_clean {ls : List Line} (h : ∀ l ∈ ls, cleanLine l) :
    physList ls = ls.map List.dropLast := by
  induction ls with
  | nil => rfl
  | cons l rest ih =>
    simp only [physList, List.map_cons, List.flatten_cons]
    rw [physLines_clean (h l (by simp))]
    have := ih (fun x hx => h x (by simp [hx]))
    simp only [physList] at this
    rw [this]
    simp

/-- Helper: the region statements of clean lines are the per-line
classifications. -/
theorem regionStmts_clean {ls : List Line} (h : ∀ l ∈ ls, cleanLine l) :
    regionStmts ls = ls.map classify := by
  simp only [regionStmts]
  rw [physList_clean h]
  rw [List.map_map]
  exact List.map_congr_left (fun l hl =>
    classify_congr (strip_dropLast (h l hl)))

/-- Helper: a line whose `lstrip` does not start with `"return "` is merely
indented by the rewrite. -/
theorem stripReturnLine_plain {l : Line}
    (h : ("return ".data).isPrefixOf (lstrip l) = false) (b : Bool) :
    stripReturnLine l b = fourSpaces ++ l := by
  simp [stripReturnLine, h]

/-- Helper: on lines without `"return "`-style statements the rewrite is a
plain four-space indent. -/
theorem indent_strip_return_plain :
    ∀ ls : List Line,
      (∀ l ∈ ls, ("return ".data).isPrefixOf (lstrip l) = false) →
      indent_strip_return ls = ls.map (fun l => fourSpaces ++ l)
  | [], _ => rfl
  | [l], h => by
    simp only [indent_strip_return, List.map_cons, List.map_nil]
    rw [stripReturnLine_plain (h l (by simp)) false]
  | l :: x :: xs, h => by
    simp only [indent_strip_return, List.map_cons]
    rw [stripReturnLine_plain (h l (by simp)) true]
    have := indent_strip_return_plain (x :: xs)
      (fun y hy => h y (by simp at hy; rcases hy with hy | hy <;> simp [hy]))
    simp only [List.map_cons] at this
    rw [this]

/-- Helper: executing a region of plain statements runs them all and falls
through. -/
theorem execStmts_plain {ss : List Stmt} (h : ∀ s ∈ ss, s.isPlain = true) :
    execStmts ss = (ss, .norm) := by
  induction ss with
  | nil => rfl
  | cons s rest ih =>
    cases s with
    | pass =>
      simp only [execStmts]
      rw [ih (fun x hx => h x (by simp [hx]))]
    | expr e =>
      simp only [execStmts]
      rw [ih (fun x hx => h x (by simp [hx]))]
    | cont => exact absurd (h .cont (by simp)) (by simp [Stmt.isPlain])
    | ret e => exact absurd (h (.ret e) (by simp)) (by simp [Stmt.isPlain])

/-- Helper: a loop whose body never returns runs all `n` iterations, each
with the same executed trace, and produces no early-return value. -/
theorem runLoopN_no_ret {ss : List Stmt}
    (h : (execStmts ss).2 = .norm ∨ (execStmts ss).2 = .cont) :
    ∀ n, runLoopN ss n = (List.replicate n (execStmts ss).1, none) := by
  intro n
  induction n with
  | zero => rfl
  | succ n ih =>
    simp only [runLoopN]
    rcases h with h' | h' <;> rw [h'] <;> simp [ih, List.replicate_succ]

/-- Helper: a straight-line statement sequence ends in fall-through (it
contains no `return` and no `continue`). -/
theorem execStmts_flow_no_ret {ss : List Stmt}
    (h : ∀ s ∈ ss, s.isRet = false) :
    (execStmts ss).2 = .norm ∨ (execStmts ss).2 = .cont := by
  induction ss with
  | nil => exact Or.inl rfl
  | cons s rest ih =>
    cases s with
    | pass =>
      simp only [execStmts]
      exact ih (fun x hx => h x (by simp [hx]))
    | expr e =>
      simp only [execStmts]
      exact ih (fun x hx => h x (by simp [hx]))
    | cont => exact Or.inr rfl
    | ret e => exact absurd (h (.ret e) (by simp)) (by simp [Stmt.isRet])

/-- Helper: assembling a full harness run when the setup, init and
after-loop regions fall through and the loop body never returns. -/
theorem harnessExec_shape (h : Harness) (n : Nat)
    (sTr iTr aTr : List Stmt) (lTr : List Stmt)
    (hs : execStmts (regionStmts h.setup) = (sTr, .norm))
    (hi : execStmts (regionStmts h.init) = (iTr, .norm))
    (hl : (execStmts (((physList h.code).takeWhile inLoopLine).map classify)).1
        = lTr)
    (hlf : (execStmts (((physList h.code).takeWhile inLoopLine).map classify)).2
          = .norm
        ∨ (execStmts (((physList h.code).takeWhile inLoopLine).map classify)).2
          = .cont)
    (ha : execStmts (((physList h.code).dropWhile inLoopLine).map classify)
        = (aTr, .norm)) :
    harnessExec h n = ⟨sTr, iTr, List.replicate n lTr, aTr, .elapsed⟩ := by
  simp only [harnessExec]
  rw [hs, hi]
  rw [runLoopN_no_ret hlf n]
  rw [hl, ha]

/-! ## The marker split and the straight-line harness execution (C3) -/

/-- Helper: the scan of `benchmark_generate` splits at the first marker
line. -/
theorem splitAux_first_marker :
    ∀ (code : List Line) (idx : Nat) (l : Line),
      code[idx]? = some l → strip l = marker3 →
      (∀ j, j < idx → ∀ m, code[j]? = some m → strip m ≠ marker3) →
      splitAux code = some (code.take idx, code.drop (idx + 1)) := by
  intro code
  induction code with
  | nil => intro idx l h; simp at h
  | cons c rest ih =>
    intro idx l hget hmark hfirst
    cases idx with
    | zero =>
      rw [List.getElem?_cons_zero] at hget
      injection hget with hc
      subst hc
      simp [splitAux, hmark]
    | succ idx =>
      have hc : strip c ≠ marker3 :=
        hfirst 0 (Nat.succ_pos idx) c List.getElem?_cons_zero
      rw [List.getElem?_cons_succ] at hget
      have ihres := ih idx l hget hmark (fun j hj m hm =>
        hfirst (j + 1) (Nat.succ_lt_succ hj) m
          (by rw [List.getElem?_cons_succ]; exact hm))
      simp only [splitAux]
      rw [if_neg hc, ihres]
      simp [List.take_succ_cons, List.drop_succ_cons]

/-- Helper: with no marker line the scan finds nothing. -/
theorem splitAux_none :
    ∀ code : List Line, (∀ l ∈ code, strip l ≠ marker3) →
      splitAux code = none := by
  intro code
  induction code with
  | nil => intro _; rfl
  | cons c rest ih =>
    intro h
    simp only [splitAux]
    rw [if_neg (h c (by simp))]
    rw [ih (fun l hl => h l (by simp [hl]))]

/-- Helper: both halves of the scan's result are lines of the body. -/
theorem splitAux_subset :
    ∀ (code ini c : List Line), splitAux code = some (ini, c) →
      (∀ x ∈ ini, x ∈ code) ∧ ∀ x ∈ c, x ∈ code := by
  intro code
  induction code with
  | nil => intro ini c h; cases h
  | cons hd rest ih =>
    intro ini c h
    simp only [splitAux] at h
    by_cases hm : strip hd = marker3
    · rw [if_pos hm] at h
      injection h with h
      injection h with h1 h2
      subst h1; subst h2
      exact ⟨by simp, fun x hx => by simp [hx]⟩
    · rw [if_neg hm] at h
      cases hs : splitAux rest with
      | none => rw [hs] at h; cases h
      | some p =>
        obtain ⟨i', c'⟩ := p
        rw [hs] at h
        injection h with h
        injection h with h1 h2
        subst h1; subst h2
        obtain ⟨hi, hc⟩ := ih i' c' hs
        constructor
        · intro x hx
          rcases List.mem_cons.mp hx with h' | h'
          · simp [h']
          · simp [hi x h']
        · intro x hx
          simp [hc x hx]

/-- Helper: both halves of the init/loop split are lines of the body. -/
theorem benchmark_split_subset (code : List Line) :
    (∀ x ∈ (benchmark_split code).1, x ∈ code)
    ∧ ∀ x ∈ (benchmark_split code).2, x ∈ code := by
  simp only [benchmark_split]
  cases hs : splitAux code with
  | none => exact ⟨by simp, by simp⟩
  | some p => exact splitAux_subset code p.1 p.2 (by rw [hs])

/-- Helper: a clean line stays clean under a newline-free prefix. -/
theorem cleanLine_prepend {pre l : Line} (hpre : ∀ c ∈ pre, ¬ c = '\n')
    (h : cleanLine l) : cleanLine (pre ++ l) := by
  obtain ⟨hlast, hnl⟩ := h
  have hne : l ≠ [] := by intro h'; rw [h'] at hlast; cases hlast
  constructor
  · rw [List.getLast?_append_of_ne_nil pre hne]
    exact hlast
  · rw [List.dropLast_append_of_ne_nil _ hne]
    intro c hc
    rcases List.mem_append.mp hc with h' | h'
    · exact hpre c h'
    · exact hnl c h'

/-- Helper: four spaces contain no newline. -/
theorem fourSpaces_no_nl : ∀ c ∈ fourSpaces, ¬ c = '\n' := by decide

/-- Helper: classifying an indented-then-unterminated fragment line equals
classifying the line itself. -/
theorem classify_indent_dropLast {l : Line} (h : cleanLine l) :
    classify (fourSpaces ++ l).dropLast = classify l := by
  have hcl : cleanLine (fourSpaces ++ l) := cleanLine_prepend fourSpaces_no_nl h
  have h1 : classify (fourSpaces ++ l).dropLast = classify (fourSpaces ++ l) :=
    classify_congr (strip_dropLast hcl)
  have h2 : classify (fourSpaces ++ l) = classify l :=
    classify_congr (strip_prepend_ws (by decide))
  exact h1.trans h2

/-- Helper: the indented form of a fragment line, without its newline, is
still inside the `for` block. -/
theorem inLoop_of_fragLine {l : Line} (h : fragLine l) :
    inLoopLine ((fourSpaces ++ l).dropLast) = true := by
  obtain ⟨hpre, hclean⟩ := h
  obtain ⟨t, ht⟩ := List.isPrefixOf_iff_prefix.mp hpre
  have hne : l ≠ [] := by
    intro h'
    rw [h'] at hclean
    exact absurd hclean.1 (by simp)
  have htne : t ≠ [] := by
    intro h'
    rw [h'] at ht
    rw [← ht] at hclean
    exact absurd hclean.1 (by decide)
  rw [← ht]
  rw [show (fourSpaces ++ (fourSpaces ++ t) : Line)
      = (fourSpaces ++ fourSpaces) ++ t from by simp [List.append_assoc]]
  rw [List.dropLast_append_of_ne_nil _ htne]
  simp only [inLoopLine]
  have hpfx : ("        ".data : Line) <+: (fourSpaces ++ fourSpaces) ++ t.dropLast := by
    rw [show ("        ".data : Line) = fourSpaces ++ fourSpaces from by decide]
    exact List.prefix_append _ _
  rw [List.isPrefixOf_iff_prefix.mpr hpfx]
  simp

/-- Helper: a straight-line fragment synthesized in timing mode executes
its setup and init regions once, its loop body `n` times, and returns the
elapsed-ticks value. -/
theorem harnessExec_straightline (code setup : List Line) (n : Nat)
    (hcode : ∀ l ∈ code, fragLine l ∧ plainLine l)
    (hsetup : ∀ l ∈ setup, cleanLine l ∧ plainLine l) :
    harnessExec (benchmark_generate code setup false) n
      = ⟨setup.map classify, (benchmark_split code).1.map classify,
         List.replicate n ((benchmark_split code).2.map classify), [],
         .elapsed⟩ := by
  obtain ⟨hsub1, hsub2⟩ := benchmark_split_subset code
  have hini : ∀ l ∈ (benchmark_split code).1, fragLine l ∧ plainLine l :=
    fun l hl => hcode l (hsub1 l hl)
  have hlb : ∀ l ∈ (benchmark_split code).2, fragLine l ∧ plainLine l :=
    fun l hl => hcode l (hsub2 l hl)
  have hgen : benchmark_generate code setup false
      = ⟨setup, (benchmark_split code).1,
         indent_strip_return (benchmark_split code).2⟩ := rfl
  rw [hgen]
  have hrw : indent_strip_return (benchmark_split code).2
      = (benchmark_split code).2.map (fun l => fourSpaces ++ l) :=
    indent_strip_return_plain _ (fun l hl => (hlb l hl).2.2)
  have hphys : physList ((benchmark_split code).2.map (fun l => fourSpaces ++ l))
      = (benchmark_split code).2.map (fun l => (fourSpaces ++ l).dropLast) := by
    rw [physList_clean (by
      intro x hx
      rcases List.mem_map.mp hx with ⟨l, hl, rfl⟩
      exact cleanLine_prepend fourSpaces_no_nl (hlb l hl).1.2)]
    rw [List.map_map]
    rfl
  have htake : ((benchmark_split code).2.map
        (fun l => (fourSpaces ++ l).dropLast)).takeWhile inLoopLine
      = (benchmark_split code).2.map (fun l => (fourSpaces ++ l).dropLast) :=
    List.takeWhile_eq_self_iff.mpr (by
      intro x hx
      rcases List.mem_map.mp hx with ⟨l, hl, rfl⟩
      exact inLoop_of_fragLine (hlb l hl).1)
  have hdrop : ((benchmark_split code).2.map
        (fun l => (fourSpaces ++ l).dropLast)).dropWhile inLoopLine = [] :=
    List.dropWhile_eq_nil_iff.mpr (by
      intro x hx
      rcases List.mem_map.mp hx with ⟨l, hl, rfl⟩
      exact inLoop_of_fragLine (hlb l hl).1)
  have hloopstmts : ((benchmark_split code).2.map
        (fun l => (fourSpaces ++ l).dropLast)).map classify
      = (benchmark_split code).2.map classify := by
    rw [List.map_map]
    exact List.map_congr_left (fun l hl =>
      classify_indent_dropLast (hlb l hl).1.2)
  apply harnessExec_shape
  · rw [regionStmts_clean (fun l hl => (hsetup l hl).1)]
    exact execStmts_plain (by
      intro s hs
      rcases List.mem_map.mp hs with ⟨l, hl, rfl⟩
      exact (hsetup l hl).2.1)
  · rw [regionStmts_clean (fun l hl => (hini l hl).1.2)]
    exact execStmts_plain (by
      intro s hs
      rcases List.mem_map.mp hs with ⟨l, hl, rfl⟩
      exact (hini l hl).2.1)
  · show (execStmts _).1 = _
    rw [hrw, hphys, htake, hloopstmts]
    rw [execStmts_plain (by
      intro s hs
      rcases List.mem_map.mp hs with ⟨l, hl, rfl⟩
      exact (hlb l hl).2.1)]
  · rw [hrw, hphys, htake, hloopstmts]
    rw [execStmts_plain (by
      intro s hs
      rcases List.mem_map.mp hs with ⟨l, hl, rfl⟩
      exact (hlb l hl).2.1)]
    exact Or.inl rfl
  · rw [hrw, hphys, hdrop]
    rfl

/-- C3 (amended): `benchmark_split` splits the body at the first line whose
stripped form is `###` (the marker line itself is dropped); with no marker
the init region is empty and the whole body is the loop body; and for every
straight-line fragment body (newline-terminated, four-space-indented plain
statements) and setup, the synthesized timing unit executes the pre-marker
lines exactly once regardless of `n` and the post-marker lines exactly `n`
times.  (A body with control flow, such as a `continue`, breaks the
"exactly `n` times" part — see the counterexample.) -/
theorem C3_marker_split_and_region_execution :
    (∀ (code : List Line) (idx : Nat) (l : Line),
      code[idx]? = some l → strip l = marker3 →
      (∀ j, j < idx → ∀ m, code[j]? = some m → strip m ≠ marker3) →
      benchmark_split code = (code.take idx, code.drop (idx + 1)))
    ∧ (∀ code : List Line, (∀ l ∈ code, strip l ≠ marker3) →
        benchmark_split code = ([], code))
    ∧ (∀ (code setup : List Line) (n : Nat),
        (∀ l ∈ code, fragLine l ∧ plainLine l) →
        (∀ l ∈ setup, cleanLine l ∧ plainLine l) →
        harnessExec (benchmark_generate code setup false) n
          = ⟨setup.map classify, (benchmark_split code).1.map classify,
             List.replicate n ((benchmark_split code).2.map classify), [],
             .elapsed⟩) := by
  refine ⟨?_, ?_, harnessExec_straightline⟩
  · intro code idx l hget hmark hfirst
    simp [benchmark_split, splitAux_first_marker code idx l hget hmark hfirst]
  · intro code h
    simp [benchmark_split, splitAux_none code h]

/-- Witness for C3: the fragment `a = 1 / ### / b = 2` runs `a = 1` once
and `b = 2` twice when executed for two iterations. -/
theorem C3_marker_split_and_region_execution_witness :
    harnessExec (benchmark_generate
        ["    a = 1\n".data, "    ###\n".data, "    b = 2\n".data] [] false) 2
      = ⟨[], [Stmt.expr ("a = 1".data)],
         [[Stmt.expr ("b = 2".data)], [Stmt.expr ("b = 2".data)]], [],
         .elapsed⟩ :=
  (C3_marker_split_and_region_execution.2.2
    ["    a = 1\n".data, "    ###\n".data, "    b = 2\n".data] [] 2
    (by decide) (by decide)).trans (by decide)

/-- Counterexample for C3: in the fragment
`x = 1 / ### / continue / y = 2` the post-marker line `y = 2` is executed
zero times, not once per iteration — the executed loop trace for one
iteration differs from one full pass over the post-marker lines. -/
theorem C3_counterexample :
    (harnessExec (benchmark_generate contBody [] false) 1).loopIters
      = [[Stmt.cont]]
    ∧ (harnessExec (benchmark_generate contBody [] false) 1).loopIters
      ≠ List.replicate 1 (((benchmark_split contBody).2).map classify) := by
  decide

/-! ## The return-statement rewrite (C4) -/

/-- Helper: dropping the last element commutes with dropping a prefix. -/
theorem dropLast_drop (l : Line) (k : Nat) :
    (l.drop k).dropLast = l.dropLast.drop k := by
  rw [List.dropLast_eq_take, List.dropLast_eq_take, List.drop_take,
    List.length_drop]
  congr 1
  omega

/-- Helper: the physical lines of newline-free text plus a final newline
are just that text. -/
theorem physLines_concat_nl {A : Line} (h : ∀ c ∈ A, ¬ c = '\n') :
    physLines (A ++ ['\n']) = [A] := by
  simp only [physLines]
  rw [splitNl_append_not_nl A ['\n'] h]
  simp [splitNl, List.headI]

/-- Helper: no character of the rewritten return-expression text is a
newline. -/
theorem returnExprOf_no_nl {l : Line} (hc : cleanLine l) :
    ∀ c ∈ returnExprOf l, ¬ c = '\n' := by
  intro c hcmem
  have h1 : c ∈ (l.drop (l.length - (lstrip l).length + 4 + 2)).dropLast :=
    (List.dropWhile_sublist _).subset hcmem
  rw [dropLast_drop] at h1
  exact hc.2 c (List.drop_subset _ _ h1)

/-- Helper: the physical lines of a rewritten `"return "`-style line: the
indented expression, plus an indented `continue` when the line has a
successor. -/
theorem physLines_stripReturn {l : Line} (hc : cleanLine l)
    (hp : ("return ".data).isPrefixOf (lstrip l) = true) :
    physLines (stripReturnLine l false)
      = [List.replicate (l.length - (lstrip l).length + 4) ' '
          ++ returnExprOf l]
    ∧ physLines (stripReturnLine l true)
      = [List.replicate (l.length - (lstrip l).length + 4) ' '
          ++ returnExprOf l,
         List.replicate (l.length - (lstrip l).length + 4) ' '
          ++ "continue".data] := by
  have hnonl : ∀ c ∈ List.replicate (l.length - (lstrip l).length + 4) ' '
      ++ returnExprOf l, ¬ c = '\n' := by
    intro c hcm
    rcases List.mem_append.mp hcm with h' | h'
    · rw [List.eq_of_mem_replicate h']
      decide
    · exact returnExprOf_no_nl hc c h'
  constructor
  · simp only [stripReturnLine, hp, if_true]
    rw [show (List.replicate (l.length - (lstrip l).length + 4) ' '
        ++ lstrip ((l.drop (l.length - (lstrip l).length + 4 + 2)).dropLast)
        ++ ['\n'] : Line)
      = (List.replicate (l.length - (lstrip l).length + 4) ' '
        ++ returnExprOf l) ++ ['\n'] from by
      simp [returnExprOf, List.append_assoc]]
    exact physLines_concat_nl hnonl
  · have hcont : ("continue\n".data : Line) = "continue".data ++ ['\n'] := by
      decide
    have harg : stripReturnLine l true
        = (List.replicate (l.length - (lstrip l).length + 4) ' '
            ++ returnExprOf l)
          ++ ('\n' :: (List.replicate (l.length - (lstrip l).length + 4) ' '
            ++ ("continue".data ++ ['\n']))) := by
      simp only [stripReturnLine, hp, if_true, returnExprOf, hcont]
      simp [List.append_assoc]
    rw [harg]
    simp only [physLines]
    rw [splitNl_append_not_nl _ _ hnonl]
    rw [show splitNl ('\n' :: (List.replicate
          (l.length - (lstrip l).length + 4) ' '
        ++ ("continue".data ++ ['\n'])))
      = [] :: splitNl (List.replicate (l.length - (lstrip l).length + 4) ' '
        ++ ("continue".data ++ ['\n'])) from by simp [splitNl]]
    rw [show (List.replicate (l.length - (lstrip l).length + 4) ' '
        ++ ("continue".data ++ ['\n']) : Line)
      = (List.replicate (l.length - (lstrip l).length + 4) ' '
        ++ "continue".data) ++ ['\n'] from by simp [List.append_assoc]]
    rw [splitNl_append_not_nl _ _ (by
      intro c hcm
      rcases List.mem_append.mp hcm with h' | h'
      · rw [List.eq_of_mem_replicate h']
        decide
      · exact (by decide : ∀ x ∈ ("continue".data : Line), ¬ x = '\n') c h')]
    simp [splitNl, List.headI, List.append_assoc]

/-- Helper: every entry of the rewritten body comes from a body line. -/
theorem mem_indent_strip_return :
    ∀ {lines : List Line} {y : Line}, y ∈ indent_strip_return lines →
      ∃ l ∈ lines, ∃ b, y = stripReturnLine l b
  | [], y => by intro h; cases h
  | [l], y => by
    intro h
    simp only [indent_strip_return, List.mem_singleton] at h
    exact ⟨l, by simp, false, h⟩
  | l :: x :: xs, y => by
    intro h
    simp only [indent_strip_return] at h
    rcases List.mem_cons.mp h with h' | h'
    · exact ⟨l, by simp, true, h'⟩
    · obtain ⟨l', hl', b, hb⟩ := mem_indent_strip_return h'
      exact ⟨l', by simp [hl'], b, hb⟩

/-- Helper: classifying an expression under a leading space run. -/
theorem classify_replicate_space (k : Nat) (e : Line) :
    classify (List.replicate k ' ' ++ e) = classify e :=
  classify_congr (strip_prepend_ws (by
    intro c hcm
    rw [List.eq_of_mem_replicate hcm]
    decide))

/-- Helper: on a body of loop-safe lines the rewrite leaves no `return`
statement anywhere in the generated loop region. -/
theorem no_ret_stmts {lines : List Line} (h : ∀ l ∈ lines, retOkLine l) :
    ∀ s ∈ regionStmts (indent_strip_return lines), s.isRet = false := by
  intro s hs
  simp only [regionStmts, physList] at hs
  rcases List.mem_map.mp hs with ⟨x, hx, rfl⟩
  rcases List.mem_flatten.mp hx with ⟨ps, hps, hxps⟩
  rcases List.mem_map.mp hps with ⟨y, hy, rfl⟩
  obtain ⟨l, hl, b, rfl⟩ := mem_indent_strip_return hy
  obtain ⟨hcl, hexpr, hplain⟩ := h l hl
  cases hp : ("return ".data).isPrefixOf (lstrip l) with
  | false =>
    rw [stripReturnLine_plain hp] at hxps
    rw [physLines_clean (cleanLine_prepend fourSpaces_no_nl hcl)] at hxps
    rcases List.mem_singleton.mp hxps with rfl
    rw [classify_indent_dropLast hcl]
    exact hplain hp
  | true =>
    obtain ⟨h1, h2⟩ := physLines_stripReturn hcl hp
    cases b with
    | false =>
      rw [h1] at hxps
      rcases List.mem_singleton.mp hxps with rfl
      rw [classify_replicate_space]
      exact hexpr
    | true =>
      rw [h2] at hxps
      rcases List.mem_cons.mp hxps with h' | h'
      · rw [h']
        rw [classify_replicate_space]
        exact hexpr
      · rcases List.mem_singleton.mp h' with rfl
        rw [classify_replicate_space]
        decide

/-- C4 (amended): every loop-body line whose trimmed form is `return`
followed by a space and an expression is rewritten to evaluate the
expression and continue the loop, so the timed loop of any fragment all of
whose return statements have that form completes all `n` iterations with
no early return; the fragment containing only `return 1` completes all
iterations in timing mode, and in capture mode a single run returns
exactly the value 1.  (A bare `return` line is left unrewritten and exits
the loop early — see the counterexample.) -/
theorem C4_return_rewrite_prevents_early_exit :
    (∀ (lines : List Line) (n : Nat), (∀ l ∈ lines, retOkLine l) →
      (runLoopN (regionStmts (indent_strip_return lines)) n).2 = none
      ∧ (runLoopN (regionStmts (indent_strip_return lines)) n).1.length = n)
    ∧ (∀ n, harnessExec (benchmark_generate retOneBody [] false) n
        = ⟨[], [], List.replicate n [Stmt.expr ['1']], [], .elapsed⟩)
    ∧ harnessExec (benchmark_generate retOneBody [] true) 1
        = ⟨[], [], [[Stmt.ret (some ['1'])]], [], .intv 1⟩ := by
  refine ⟨?_, ?_, by decide⟩
  · intro lines n h
    have hfl := execStmts_flow_no_ret (no_ret_stmts h)
    rw [runLoopN_no_ret hfl n]
    simp
  · intro n
    rw [show benchmark_generate retOneBody [] false
        = ⟨[], [], ["        1\n".data]⟩ from by decide]
    exact harnessExec_shape ⟨[], [], ["        1\n".data]⟩ n [] []
      [] [Stmt.expr ['1']] (by decide) (by decide) (by decide)
      (Or.inl (by decide)) (by decide)

/-- Witness for C4: a two-line fragment whose first line is
`return f(x)` runs three full iterations with no early return. -/
theorem C4_return_rewrite_prevents_early_exit_witness :
    (runLoopN (regionStmts (indent_strip_return
        ["    return f(x)\n".data, "    y = 2\n".data])) 3).2 = none
    ∧ (runLoopN (regionStmts (indent_strip_return
        ["    return f(x)\n".data, "    y = 2\n".data])) 3).1.length = 3 :=
  C4_return_rewrite_prevents_early_exit.1
    ["    return f(x)\n".data, "    y = 2\n".data] 3 (by decide)

/-- Counterexample for C4: the fragment containing only a bare `return` —
whose trimmed form is a return statement — is not rewritten; its generated
loop exits during the first of two requested iterations and the unit
returns `None` instead of the elapsed time. -/
theorem C4_counterexample :
    (harnessExec (benchmark_generate bareRetBody [] false) 2).loopIters.length
      = 1
    ∧ (harnessExec (benchmark_generate bareRetBody [] false) 2).ret = .pynone
    ∧ (harnessExec (benchmark_generate bareRetBody [] false) 2).loopIters.length ≠ 2 := by
  decide

/-! ## Baseline handling (C6) -/

/-- Helper: with an explicit non-zero iteration count a measurement is a
single run of the unit at that count, divided by the count. -/
theorem measureRaw_explicit (name : Line) (explicit thr : Int)
    (u : LoadedUnit) (hex : explicit ≠ 0) (hn : u.raises = none) :
    measureRaw name explicit thr u
      = .ok ((u.ticks explicit.toNat : ℚ) / (explicit : ℚ), explicit,
             [Ev.run name explicit]) := by
  simp [measureRaw, chooseIters, runUnit, hex, hn]

/-- Helper: a successful pre-flight result lists the fragments' names in
order. -/
theorem forall2_fst_eq {units : List (Line × LoadedUnit)}
    {fs : List (Line × FragSpec)}
    (h : List.Forall₂ (fun (q : Line × LoadedUnit) (p : Line × FragSpec) =>
        q.1 = p.1 ∧ p.2.compile = .ok q.2) units fs) :
    units.map Prod.fst = fs.map Prod.fst := by
  induction h with
  | nil => rfl
  | cons h1 _ ih => simp [h1.1, ih]

/-- Helper: the measurement loop, once a ratio baseline is fixed, reports
for every remaining fragment its raw per-iteration cost minus the ambient
baseline cost, and its ratio against the fixed denominator. -/
theorem timingLoop_some_ok (explicit thr : Int) (nsBase bl : ℚ)
    (hex : explicit ≠ 0) (hbl : bl ≠ 0) :
    ∀ units : List (Line × LoadedUnit), (∀ q ∈ units, q.2.raises = none) →
      timingLoop explicit thr nsBase (some bl) units
        = (.ok (units.map (fun q =>
            (q.1, (q.2.ticks explicit.toNat : ℚ) / (explicit : ℚ) - nsBase,
             ((q.2.ticks explicit.toNat : ℚ) / (explicit : ℚ) - nsBase) / bl))),
           units.map (fun q => Ev.run q.1 explicit)) := by
  intro units
  induction units with
  | nil => intro _; rfl
  | cons q tl ih =>
    intro hr
    obtain ⟨name, u⟩ := q
    simp only [timingLoop]
    rw [measureRaw_explicit name explicit thr u hex (hr (name, u) (by simp))]
    simp only [Option.getD_some]
    rw [if_neg hbl]
    rw [ih (fun x hx => hr x (by simp [hx]))]
    simp [Except.map]

/-- Helper: the measurement loop fixes its ratio denominator to the first
fragment's baseline-subtracted cost and then reports every fragment
uniformly. -/
theorem timingLoop_none_cons (explicit thr : Int) (nsBase : ℚ)
    (hex : explicit ≠ 0) (q0 : Line × LoadedUnit)
    (tl : List (Line × LoadedUnit))
    (hr : ∀ q ∈ q0 :: tl, q.2.raises = none)
    (hbl : (q0.2.ticks explicit.toNat : ℚ) / (explicit : ℚ) - nsBase ≠ 0) :
    timingLoop explicit thr nsBase none (q0 :: tl)
      = (.ok ((q0 :: tl).map (fun q =>
          (q.1, (q.2.ticks explicit.toNat : ℚ) / (explicit : ℚ) - nsBase,
           ((q.2.ticks explicit.toNat : ℚ) / (explicit : ℚ) - nsBase)
             / ((q0.2.ticks explicit.toNat : ℚ) / (explicit : ℚ) - nsBase)))),
         (q0 :: tl).map (fun q => Ev.run q.1 explicit)) := by
  obtain ⟨name, u⟩ := q0
  simp only [timingLoop]
  rw [measureRaw_explicit name explicit thr u hex (hr (name, u) (by simp))]
  simp only [Option.getD_none]
  rw [if_neg hbl]
  rw [timingLoop_some_ok explicit thr nsBase _ hex hbl tl
    (fun x hx => hr x (by simp [hx]))]
  simp [Except.map]

/-- C6 (amended): when a `base` fragment with a non-empty body is present,
it is measured first (the event log opens with its compilation and its
run), it is removed from the reported set (the reported names are exactly
the other fragments' names, `base` not among them), and every reported
per-iteration cost is the fragment's raw per-iteration cost minus the
`base` fragment's per-iteration cost `b` — the same `b` for the whole run,
possibly yielding negative costs.  (A `base` fragment with an empty body
is popped but not measured — see the counterexample.) -/
theorem C6_base_fragment_baseline
    (args : Args) (functions : List (Line × FragSpec)) (passTicks : Nat → Nat)
    (bfs : FragSpec) (bu : LoadedUnit) (rest : List (Line × FragSpec))
    (units : List (Line × LoadedUnit)) (pEvs : List Ev)
    (h1 : dictPop baseKey functions = (some bfs, rest))
    (h2 : bfs.source ≠ [])
    (h3 : bfs.compile = .ok bu)
    (h4 : bu.raises = none)
    (h5 : args.iterations ≠ 0)
    (h6 : baseKey ∉ rest.map Prod.fst)
    (h7 : preflight rest = .ok (units, [], pEvs))
    (h8 : ∀ q, units.head? = some q →
      (q.2.ticks args.iterations.toNat : ℚ) / (args.iterations : ℚ)
        - (bu.ticks args.iterations.toNat : ℚ) / (args.iterations : ℚ) ≠ 0) :
    (∀ q0 tl, units = q0 :: tl →
      mode_benchmark args functions passTicks
        = (.ok (.measured (units.map (fun q =>
            (q.1,
             (q.2.ticks args.iterations.toNat : ℚ) / (args.iterations : ℚ)
               - (bu.ticks args.iterations.toNat : ℚ) / (args.iterations : ℚ),
             ((q.2.ticks args.iterations.toNat : ℚ) / (args.iterations : ℚ)
               - (bu.ticks args.iterations.toNat : ℚ)
                 / (args.iterations : ℚ))
               / ((q0.2.ticks args.iterations.toNat : ℚ)
                   / (args.iterations : ℚ)
                 - (bu.ticks args.iterations.toNat : ℚ)
                   / (args.iterations : ℚ)))))),
           Ev.comp baseKey :: Ev.run baseKey args.iterations
             :: (pEvs ++ units.map (fun q => Ev.run q.1 args.iterations))))
    ∧ (units = [] →
      mode_benchmark args functions passTicks
        = (.ok (.measured []),
           Ev.comp baseKey :: Ev.run baseKey args.iterations :: pEvs))
    ∧ units.map Prod.fst = rest.map Prod.fst
    ∧ baseKey ∉ units.map Prod.fst := by
  have hnames := forall2_fst_eq (preflight_ok h7).1
  have hno : ∀ q ∈ units, q.2.raises = none := (preflight_ok h7).2.2.2 rfl
  have hne : functions ≠ [] := by
    intro h'
    rw [h'] at h1
    simp [dictPop] at h1
  have hbase : basePhase args (thresholdTicks args.threshold) passTicks
      (some bfs)
      = .ok ((bu.ticks args.iterations.toNat : ℚ) / (args.iterations : ℚ),
             [Ev.comp baseKey, Ev.run baseKey args.iterations]) := by
    have hmr := measureRaw_explicit baseKey args.iterations
      (thresholdTicks args.threshold) bu h5 h4
    simp only [basePhase, if_pos h2, h3, hmr]
  have hcommon : ∀ tres
      (htl : timingLoop args.iterations (thresholdTicks args.threshold)
          ((bu.ticks args.iterations.toNat : ℚ) / (args.iterations : ℚ))
          none units = tres),
      mode_benchmark args functions passTicks
        = (tres.1.map .measured,
           (Ev.comp baseKey :: Ev.run baseKey args.iterations :: pEvs)
             ++ tres.2) := by
    intro tres htl
    simp only [mode_benchmark]
    rw [show functions.isEmpty = false from List.isEmpty_eq_false.mpr hne]
    simp only [Bool.false_eq_true, if_false, h1, hbase, h7]
    rw [if_neg (by simp : ¬ (([] : List (Line × Line)) ≠ []))]
    rw [htl]
    simp
  refine ⟨?_, ?_, hnames, hnames ▸ h6⟩
  · intro q0 tl hu
    subst hu
    have htl := timingLoop_none_cons args.iterations
      (thresholdTicks args.threshold)
      ((bu.ticks args.iterations.toNat : ℚ) / (args.iterations : ℚ)) h5 q0 tl
      hno (h8 q0 rfl)
    rw [hcommon _ htl]
    simp [Except.map]
  · intro hu
    subst hu
    rw [hcommon (.ok [], []) rfl]
    simp [Except.map]

/-- Witness for C6: with explicit iteration count 2, a `base` fragment
elapsing 40 ticks (20 per iteration) and a fragment elapsing 30 ticks (15
per iteration), the reported cost is 15 − 20 = −5 (negative, as the spec
documents), the ratio denominator is that first cost, and the event log
opens with `base`'s compilation and run. -/
theorem C6_base_fragment_baseline_witness :
    mode_benchmark ⟨2, 0, false, true⟩ fnsNegBase (fun _ => 10000000)
      = (.ok (.measured [(keyF, -5, 1)]),
         [Ev.comp baseKey, Ev.run baseKey 2, Ev.comp keyF, Ev.run keyF 1,
          Ev.run keyF 2])
    ∧ (-5 : ℚ) < 0 := by
  have h := (C6_base_fragment_baseline ⟨2, 0, false, true⟩ fnsNegBase
      (fun _ => 10000000)
      ⟨["    b\n".data], .ok (okUnit fun _ => 40)⟩ (okUnit fun _ => 40)
      [(keyF, ⟨["    x\n".data], .ok (okUnit fun _ => 30)⟩)]
      [(keyF, okUnit fun _ => 30)] [Ev.comp keyF, Ev.run keyF 1]
      rfl (by decide) rfl rfl (by decide) (by decide) rfl
      (by
        intro q hq
        injection hq with hq
        subst hq
        norm_num [okUnit])).1
    (keyF, okUnit fun _ => 30) [] rfl
  refine ⟨h.trans ?_, by norm_num⟩
  norm_num [okUnit]

/-- Counterexample for C6: a present `base` fragment with an empty body is
popped from the mapping but never compiled or measured — the walrus
condition `if source := functions.pop("base", None):` is false for an
empty body, so the loop-overhead fallback is used instead: the event log
opens with the internal `pass` unit, holds no `base` event at all, and the
reported cost subtracts the empty-loop overhead, not a `base` cost. -/
theorem C6_counterexample :
    mode_benchmark ⟨2, 0, false, true⟩ fnsEmptyBase (fun _ => 10000000)
      = (.ok (.measured [(keyF, 5, 1)]),
         [Ev.comp passKey, Ev.run passKey 1000000, Ev.comp keyF,
          Ev.run keyF 1, Ev.run keyF 2])
    ∧ Ev.comp baseKey
        ∉ [Ev.comp passKey, Ev.run passKey 1000000, Ev.comp keyF,
           Ev.run keyF 1, Ev.run keyF 2]
    ∧ Ev.run baseKey 2
        ∉ [Ev.comp passKey, Ev.run passKey 1000000, Ev.comp keyF,
           Ev.run keyF 1, Ev.run keyF 2]
    ∧ Ev.run baseKey 1000
        ∉ [Ev.comp passKey, Ev.run passKey 1000000, Ev.comp keyF,
           Ev.run keyF 1, Ev.run keyF 2] := by
  refine ⟨?_, by decide, by decide, by decide⟩
  simp only [mode_benchmark, basePhase, basePhaseFallback, measureRaw,
    chooseIters, runUnit, guessVal, thresholdTicks, preflight, timingLoop,
    dictPop, fnsEmptyBase, okUnit, keyF, baseKey, passKey, Except.map]
  norm_num [pyTrunc]

end Perf
